import Mathlib

/-!
Verification development for the strc_app dashboard engine
(`backend/app/services/dashboard/`).

Conventions of the embedding:
* Monetary amounts are modelled as rationals (`ℚ`).  Python's
  `round(x, 2)` is modelled by `round2` below (round-half-up at two
  decimals; the claims under study never evaluate `round` at an exact
  tie, where Python's float banker's rounding could differ).
* The series-level code (`calculators/performance.py`,
  `calculators/totals.py`) uses timestamps only through equality and
  ordering, so series timestamps are modelled as naturals (for valid
  Python datetimes, `dtKey` below is an order- and
  equality-preserving injection into ℕ).
* Python dicts keyed by timestamps / asset types are modelled as
  association lists in insertion order (`upsertAdd`, `upsertSet`);
  `dict[k] += v` on a `defaultdict(float)` is `upsertAdd`, a plain
  assignment is `upsertSet`.  Dict-comprehension lookup (later entry
  wins) is `mapLookup`.
* Python's `sorted` (a stable sort) is modelled by
  `List.insertionSort` with a reflexive total relation, which is the
  same stable sort.
-/

/-- Python `round(q, 2)` (round-half-to-even on floats; the inputs in this
development are never exact ties, where that could differ from
round-half-up). -/
def round2 (q : ℚ) : ℚ := (round (q * 100) : ℤ) / 100

/-- A point of a time series: the dicts `{"timestamp": ..., "value": ...}`
built by `PerformanceCalculator`. -/
structure SeriesPoint where
  ts : ℕ
  val : ℚ
deriving DecidableEq, Repr

/-- DTO from `queries/positions.py` (`PositionSnapshot`), with the
timestamp type abstracted (ℕ for the series-level calculators). -/
structure PosSnap where
  position_id : ℕ
  ticker : Option String
  asset_type : Option String
  quantity : ℚ
  price : Option ℚ
  value : ℚ
  timestamp : ℕ
deriving DecidableEq, Repr

/-- DTO from `queries/dividends.py` (`CashFlowSnapshot`). -/
structure CashFlow where
  position_id : Option ℕ
  timestamp : ℕ
  amount : ℚ
deriving DecidableEq, Repr

/-- `m[k] += v` on a `defaultdict(float)` association list. -/
def upsertAdd {κ : Type} [DecidableEq κ] : List (κ × ℚ) → κ → ℚ → List (κ × ℚ)
  | [], k, v => [(k, v)]
  | (k', v') :: rest, k, v =>
    if k' = k then (k', v' + v) :: rest else (k', v') :: upsertAdd rest k v

/-- `m[k] = v` (overwrite) on an association list. -/
def upsertSet {κ : Type} [DecidableEq κ] : List (κ × ℚ) → κ → ℚ → List (κ × ℚ)
  | [], k, v => [(k, v)]
  | (k', v') :: rest, k, v =>
    if k' = k then (k', v) :: rest else (k', v') :: upsertSet rest k v

/-- Dict lookup on an association list with unique keys (first match). -/
def assocFind {κ : Type} [DecidableEq κ] (m : List (κ × ℚ)) (k : κ) : Option ℚ :=
  (m.find? (fun e => e.1 = k)).map (·.2)

/-- `TotalsCalculator.calculate` (`calculators/totals.py`, lines 14-60).
Returns `(start_value, end_value, absolute_delta, percent_delta)`. -/
def totals_calculate (start_snapshots end_snapshots : List PosSnap)
    (cash_flows : Option (List CashFlow)) (end_timestamp : Option ℕ) :
    ℚ × ℚ × ℚ × ℚ :=
  let start_value := (start_snapshots.map (·.value)).sum
  let end_position_value := (end_snapshots.map (·.value)).sum
  let cumulative_cash :=
    match cash_flows, end_timestamp with
    | some flows, some et => ((flows.filter (fun f => f.timestamp ≤ et)).map (·.amount)).sum
    | _, _ => 0
  let end_value := end_position_value + cumulative_cash
  let absolute_delta := end_value - start_value
  let percent_delta :=
    if 0 < start_value then absolute_delta / start_value * 100
    else if end_value = 0 then 0 else 100
  (start_value, end_value, absolute_delta, percent_delta)

/-- `PerformanceCalculator.calculate_delta` (`calculators/performance.py`,
lines 158-182). -/
def calculate_delta (series : List SeriesPoint) : ℚ × ℚ :=
  if series.length < 2 then (0, 0)
  else
    let start_value := ((series.head?).map (·.val)).getD 0
    let end_value := ((series.getLast?).map (·.val)).getD 0
    let absolute_delta := end_value - start_value
    let percent_delta :=
      if 0 < start_value then absolute_delta / start_value * 100
      else if end_value = 0 then 0 else 100
    (absolute_delta, percent_delta)

/-- `PerformanceCalculator.calculate_stats` (lines 137-156): max/min of
the series values, `0` for an empty series. -/
def calculate_stats (series : List SeriesPoint) : ℚ × ℚ :=
  match series with
  | [] => (0, 0)
  | p :: rest => (((p :: rest).map (·.val)).foldl max p.val,
                  ((p :: rest).map (·.val)).foldl min p.val)

/-- Dict-comprehension lookup `{p["timestamp"]: p["value"] for p in l}[t]`:
on duplicate timestamps the later entry wins, hence the search from the
rear. -/
def mapLookup (l : List SeriesPoint) (t : ℕ) : Option ℚ :=
  (l.reverse.find? (fun p => p.ts = t)).map (·.val)

/-- The sorted set union of the timestamps of two series
(`performance.py`, lines 104-111). -/
def sortedTimestamps (pos cash : List SeriesPoint) : List ℕ :=
  (((pos ++ cash).map (·.ts)).dedup).insertionSort (· ≤ ·)

/-- The forward-fill loop of `_merge_series` (lines 117-133): walk the
sorted timestamps keeping last-known position and cash accumulators. -/
def mergeLoop (pos cash : List SeriesPoint) : ℚ → ℚ → List ℕ → List SeriesPoint
  | _, _, [] => []
  | lastPos, lastCash, t :: rest =>
    let lp := (mapLookup pos t).getD lastPos
    let lc := (mapLookup cash t).getD lastCash
    ⟨t, round2 (lp + lc)⟩ :: mergeLoop pos cash lp lc rest

/-- `PerformanceCalculator._merge_series` (lines 84-135). -/
def merge_series (position_series cash_series : List SeriesPoint) : List SeriesPoint :=
  if position_series = [] ∧ cash_series = [] then []
  else mergeLoop position_series cash_series 0 0
    (sortedTimestamps position_series cash_series)

/-- Result of `PerformanceCalculator.calculate_series`. -/
structure SeriesResult where
  total_series : List SeriesPoint
  position_series : List SeriesPoint
  cash_series : List SeriesPoint
deriving DecidableEq, Repr

/-- The `position_by_timestamp` defaultdict of `calculate_series`
(lines 37-40). -/
def buildPositionMap (daily_snapshots : List PosSnap) : List (ℕ × ℚ) :=
  daily_snapshots.foldl (fun m s => upsertAdd m s.timestamp s.value) []

/-- The cumulative-cash loop of `calculate_series` (lines 57-62):
`cumulative_cash += amount; cash_by_timestamp[ts] = cumulative_cash`. -/
def cashLoop : ℚ → List (ℕ × ℚ) → List CashFlow → List (ℕ × ℚ)
  | _, m, [] => m
  | cum, m, f :: rest => cashLoop (cum + f.amount) (upsertSet m f.timestamp (cum + f.amount)) rest

/-- Python `sorted(d.items())` on a dict with (unique) ℕ keys: a stable
sort by key. -/
def sortPairsByKey (m : List (ℕ × ℚ)) : List (ℕ × ℚ) :=
  m.insertionSort (fun a b => a.1 ≤ b.1)

/-- `PerformanceCalculator.calculate_series` (lines 15-82).  `if cash_flows:`
is false both for `None` and for an empty list. -/
def calculate_series (daily_snapshots : List PosSnap)
    (cash_flows : Option (List CashFlow)) : SeriesResult :=
  let position_series :=
    (sortPairsByKey (buildPositionMap daily_snapshots)).map
      (fun e => SeriesPoint.mk e.1 (round2 e.2))
  let cash_series :=
    match cash_flows with
    | some flows =>
      if flows = [] then []
      else
        let sorted_cash_flows := flows.insertionSort (fun a b => a.timestamp ≤ b.timestamp)
        (sortPairsByKey (cashLoop 0 [] sorted_cash_flows)).map
          (fun e => SeriesPoint.mk e.1 (round2 e.2))
    | none => []
  ⟨merge_series position_series cash_series, position_series, cash_series⟩

/-- Sum of the raw (unrounded) position values recorded at timestamp `t`:
what `position_by_timestamp[t]` accumulates to. -/
def posTotalAt (snaps : List PosSnap) (t : ℕ) : ℚ :=
  ((snaps.filter (fun s => s.timestamp = t)).map (·.value)).sum

/-- Raw cumulative cash received up to and including timestamp `t`. -/
def cumCashAt (flows : List CashFlow) (t : ℕ) : ℚ :=
  ((flows.filter (fun f => f.timestamp ≤ t)).map (·.amount)).sum

/-- Declarative "last known value" of a series at time `t`: the value
stored at the largest timestamp of the series that is `≤ t`, and `0`
when the series has no sample at or before `t`. -/
def lastKnown (l : List SeriesPoint) (t : ℕ) : ℚ :=
  match ((l.map (·.ts)).filter (fun x => x ≤ t)).max? with
  | none => 0
  | some m => (mapLookup l m).getD 0

/-- Specification device for the merge loop: fold the last-known
accumulator for series `l` over a timestamp list. -/
def fillFrom (l : List SeriesPoint) : ℚ → List ℕ → ℕ → ℚ
  | a, [], _ => a
  | a, t' :: rest, t =>
    if t' ≤ t then fillFrom l ((mapLookup l t').getD a) rest t
    else fillFrom l a rest t

/-! ### Lemmas about `mapLookup` -/

theorem mapLookup_eq_none_iff (l : List SeriesPoint) (t : ℕ) :
    mapLookup l t = none ↔ t ∉ l.map (·.ts) := by
  unfold mapLookup
  rw [Option.map_eq_none']
  rw [List.find?_eq_none]
  constructor
  · intro h hmem
    obtain ⟨p, hp, hts⟩ := List.mem_map.mp hmem
    exact h p (List.mem_reverse.mpr hp) (by simpa using hts)
  · intro h p hp hpt
    exact h (List.mem_map.mpr ⟨p, List.mem_reverse.mp hp, by simpa using hpt⟩)

theorem mapLookup_isSome_of_mem (l : List SeriesPoint) (t : ℕ)
    (h : t ∈ l.map (·.ts)) : ∃ v, mapLookup l t = some v := by
  cases hv : mapLookup l t with
  | none => exact absurd h ((mapLookup_eq_none_iff l t).mp hv)
  | some v => exact ⟨v, rfl⟩

theorem mapLookup_some_elim (l : List SeriesPoint) (t : ℕ) (v : ℚ)
    (h : mapLookup l t = some v) : ∃ p ∈ l, p.ts = t ∧ p.val = v := by
  unfold mapLookup at h
  obtain ⟨p, hfind, hval⟩ := Option.map_eq_some'.mp h
  refine ⟨p, List.mem_reverse.mp (List.mem_of_find?_eq_some hfind), ?_, hval⟩
  simpa using List.find?_some hfind

/-! ### The fill/merge loop equals the declarative last-known function -/

theorem fillFrom_no_hit (l : List SeriesPoint) (t : ℕ) :
    ∀ (tss : List ℕ) (a : ℚ),
      (∀ t' ∈ tss, t' ≤ t → mapLookup l t' = none) → fillFrom l a tss t = a := by
  intro tss
  induction tss with
  | nil => intro a _; rfl
  | cons t' rest ih =>
    intro a h
    by_cases hle : t' ≤ t
    · rw [fillFrom, if_pos hle, h t' (List.mem_cons_self _ _) hle]
      exact ih a (fun x hx => h x (List.mem_cons_of_mem _ hx))
    · rw [fillFrom, if_neg hle]
      exact ih a (fun x hx => h x (List.mem_cons_of_mem _ hx))

theorem fillFrom_hit (l : List SeriesPoint) (t : ℕ) :
    ∀ (tss : List ℕ), List.Sorted (· < ·) tss →
      ∀ (m : ℕ) (v : ℚ) (a : ℚ), m ∈ tss → m ≤ t → mapLookup l m = some v →
        (∀ t' ∈ tss, m < t' → t' ≤ t → mapLookup l t' = none) →
        fillFrom l a tss t = v := by
  intro tss
  induction tss with
  | nil => intro _ m v a hm; exact absurd hm (List.not_mem_nil m)
  | cons t0 rest ih =>
    intro hs m v a hm hle hlk hnone
    have hall : ∀ b ∈ rest, t0 < b := List.rel_of_sorted_cons hs
    have hrest : List.Sorted (· < ·) rest := List.Sorted.of_cons hs
    rcases List.mem_cons.mp hm with heq | hmem
    · subst heq
      rw [fillFrom, if_pos hle, hlk]
      exact fillFrom_no_hit l t rest v
        (fun x hx hxle => hnone x (List.mem_cons_of_mem _ hx) (hall x hx) hxle)
    · have ht0m : t0 < m := hall m hmem
      have ht0 : t0 ≤ t := le_trans (le_of_lt ht0m) hle
      rw [fillFrom, if_pos ht0]
      exact ih hrest m v _ hmem hle hlk
        (fun x hx => hnone x (List.mem_cons_of_mem _ hx))

theorem fillFrom_eq_lastKnown (l : List SeriesPoint) (tss : List ℕ) (t : ℕ)
    (hs : List.Sorted (· < ·) tss) (hsub : ∀ p ∈ l, p.ts ∈ tss) :
    fillFrom l 0 tss t = lastKnown l t := by
  unfold lastKnown
  cases hmax : ((l.map (·.ts)).filter (fun x => x ≤ t)).max? with
  | none =>
    have hnil := List.max?_eq_none_iff.mp hmax
    have hno : ∀ x ∈ l.map (·.ts), ¬ (x ≤ t) := by
      intro x hx hxle
      have : x ∈ (l.map (·.ts)).filter (fun x => x ≤ t) :=
        List.mem_filter.mpr ⟨hx, by simpa using hxle⟩
      rw [hnil] at this
      exact absurd this (List.not_mem_nil x)
    refine fillFrom_no_hit l t tss 0 ?_
    intro t' _ ht'
    rw [mapLookup_eq_none_iff]
    intro hmem
    exact hno t' hmem ht'
  | some m =>
    obtain ⟨hmem, hmle⟩ := List.max?_eq_some_iff'.mp hmax
    obtain ⟨hml, hmt⟩ := List.mem_filter.mp hmem
    have hmt' : m ≤ t := by simpa using hmt
    obtain ⟨v, hv⟩ := mapLookup_isSome_of_mem l m hml
    show fillFrom l 0 tss t = (mapLookup l m).getD 0
    rw [hv, Option.getD_some]
    have hmtss : m ∈ tss := by
      obtain ⟨p, hp, hpts⟩ := List.mem_map.mp hml
      exact hpts ▸ hsub p hp
    refine fillFrom_hit l t tss hs m v 0 hmtss hmt' hv ?_
    intro t' _ hmt'' ht'le
    rw [mapLookup_eq_none_iff]
    intro hmem'
    have : t' ∈ (l.map (·.ts)).filter (fun x => x ≤ t) :=
      List.mem_filter.mpr ⟨hmem', by simpa using ht'le⟩
    exact absurd (hmle t' this) (not_le.mpr hmt'')

theorem mergeLoop_eq_map (pos cash : List SeriesPoint) :
    ∀ (tss : List ℕ), List.Sorted (· < ·) tss → ∀ (lp lc : ℚ),
      mergeLoop pos cash lp lc tss =
        tss.map (fun t =>
          SeriesPoint.mk t (round2 (fillFrom pos lp tss t + fillFrom cash lc tss t))) := by
  intro tss
  induction tss with
  | nil => intro _ lp lc; rfl
  | cons t0 rest ih =>
    intro hs lp lc
    have hall : ∀ b ∈ rest, t0 < b := List.rel_of_sorted_cons hs
    have hrest : List.Sorted (· < ·) rest := List.Sorted.of_cons hs
    rw [mergeLoop, List.map_cons]
    have hhead : ∀ (l : List SeriesPoint) (a : ℚ),
        fillFrom l a (t0 :: rest) t0 = (mapLookup l t0).getD a := by
      intro l a
      rw [fillFrom, if_pos (le_refl t0)]
      exact fillFrom_no_hit l t0 rest _
        (fun x hx hxle => absurd (hall x hx) (not_lt.mpr hxle))
    have htail : ∀ (l : List SeriesPoint) (a : ℚ) (t : ℕ), t ∈ rest →
        fillFrom l a (t0 :: rest) t = fillFrom l ((mapLookup l t0).getD a) rest t := by
      intro l a t ht
      rw [fillFrom, if_pos (le_of_lt (hall t ht))]
    rw [ih hrest ((mapLookup pos t0).getD lp) ((mapLookup cash t0).getD lc)]
    rw [hhead pos lp, hhead cash lc]
    refine congrArg (_ :: ·) (List.map_congr_left ?_)
    intro t ht
    rw [htail pos lp t ht, htail cash lc t ht]

/-! ### The sorted timestamp union -/

theorem sortedTimestamps_sorted_le (pos cash : List SeriesPoint) :
    List.Sorted (· ≤ ·) (sortedTimestamps pos cash) :=
  List.sorted_insertionSort _ _

theorem sortedTimestamps_nodup (pos cash : List SeriesPoint) :
    (sortedTimestamps pos cash).Nodup :=
  ((List.perm_insertionSort _ _).symm).nodup (List.nodup_dedup _)

theorem sortedTimestamps_sorted_lt (pos cash : List SeriesPoint) :
    List.Sorted (· < ·) (sortedTimestamps pos cash) :=
  (sortedTimestamps_sorted_le pos cash).lt_of_le (sortedTimestamps_nodup pos cash)

theorem mem_sortedTimestamps (pos cash : List SeriesPoint) (t : ℕ) :
    t ∈ sortedTimestamps pos cash ↔ t ∈ pos.map (·.ts) ∨ t ∈ cash.map (·.ts) := by
  unfold sortedTimestamps
  rw [List.mem_insertionSort, List.mem_dedup, List.map_append, List.mem_append]

/-- `_merge_series` in closed form: the map over the sorted timestamp
union of the rounded sum of the two last-known values. -/
theorem merge_series_eq (pos cash : List SeriesPoint) :
    merge_series pos cash = (sortedTimestamps pos cash).map
      (fun t => SeriesPoint.mk t (round2 (lastKnown pos t + lastKnown cash t))) := by
  unfold merge_series
  by_cases hemp : pos = [] ∧ cash = []
  · rw [if_pos hemp]
    obtain ⟨h1, h2⟩ := hemp
    subst h1; subst h2
    rfl
  · rw [if_neg hemp]
    rw [mergeLoop_eq_map pos cash _ (sortedTimestamps_sorted_lt pos cash) 0 0]
    refine List.map_congr_left ?_
    intro t _
    rw [fillFrom_eq_lastKnown pos _ t (sortedTimestamps_sorted_lt pos cash)
          (fun p hp => (mem_sortedTimestamps pos cash p.ts).mpr
            (Or.inl (List.mem_map.mpr ⟨p, hp, rfl⟩))),
        fillFrom_eq_lastKnown cash _ t (sortedTimestamps_sorted_lt pos cash)
          (fun p hp => (mem_sortedTimestamps pos cash p.ts).mpr
            (Or.inr (List.mem_map.mpr ⟨p, hp, rfl⟩)))]

/-! ### Two-decimal rounding -/

theorem round2_div100 (z : ℤ) : round2 ((z : ℚ) / 100) = (z : ℚ) / 100 := by
  unfold round2
  rw [show ((z : ℚ) / 100 * 100) = ((z : ℤ) : ℚ) by field_simp, round_intCast]

theorem round2_intCast (z : ℤ) : round2 ((z : ℚ)) = (z : ℚ) := by
  unfold round2
  rw [show ((z : ℚ) * 100) = ((z * 100 : ℤ) : ℚ) by push_cast; ring, round_intCast]
  push_cast
  ring

theorem round2_natCast (n : ℕ) : round2 ((n : ℚ)) = (n : ℚ) := by
  rw [show ((n : ℚ)) = (((n : ℤ)) : ℚ) by push_cast; ring, round2_intCast]

theorem round2_mono {x y : ℚ} (h : x ≤ y) : round2 x ≤ round2 y := by
  unfold round2
  have : round (x * 100) ≤ round (y * 100) := by
    rw [round_eq, round_eq]
    exact Int.floor_mono (by linarith)
  have h100 : (0 : ℚ) < 100 := by norm_num
  rw [div_le_div_iff₀ h100 h100]
  exact_mod_cast mul_le_mul_of_nonneg_right this (by norm_num)

/-- A rational that is a whole number of cents (what every value stored
in a series is, since every stored value passed through `round(·, 2)`). -/
def CentMultiple (q : ℚ) : Prop := ∃ z : ℤ, q = (z : ℚ) / 100

theorem centMultiple_zero : CentMultiple 0 := ⟨0, by norm_num⟩

theorem centMultiple_add {a b : ℚ} (ha : CentMultiple a) (hb : CentMultiple b) :
    CentMultiple (a + b) := by
  obtain ⟨x, hx⟩ := ha
  obtain ⟨y, hy⟩ := hb
  exact ⟨x + y, by rw [hx, hy]; push_cast; ring⟩

theorem round2_eq_self {q : ℚ} (h : CentMultiple q) : round2 q = q := by
  obtain ⟨z, hz⟩ := h
  rw [hz, round2_div100]

theorem round2_centMultiple (q : ℚ) : CentMultiple (round2 q) := ⟨round (q * 100), rfl⟩

theorem lastKnown_centMultiple (l : List SeriesPoint) (t : ℕ)
    (h : ∀ p ∈ l, CentMultiple p.val) : CentMultiple (lastKnown l t) := by
  unfold lastKnown
  cases hmax : ((l.map (·.ts)).filter (fun x => x ≤ t)).max? with
  | none => exact centMultiple_zero
  | some m =>
    show CentMultiple ((mapLookup l m).getD 0)
    cases hv : mapLookup l m with
    | none => exact centMultiple_zero
    | some v =>
      obtain ⟨p, hp, _, hval⟩ := mapLookup_some_elim l m v hv
      rw [Option.getD_some, ← hval]
      exact h p hp

/-! ### Association-list (Python dict) lemmas -/

theorem assocFind_nil {κ : Type} [DecidableEq κ] (k' : κ) :
    assocFind ([] : List (κ × ℚ)) k' = none := rfl

theorem assocFind_cons {κ : Type} [DecidableEq κ] (ak : κ) (av : ℚ) (rest : List (κ × ℚ))
    (k' : κ) :
    assocFind ((ak, av) :: rest) k' = if ak = k' then some av else assocFind rest k' := by
  by_cases h : ak = k'
  · simp [assocFind, List.find?_cons, h]
  · simp [assocFind, List.find?_cons, h]

theorem upsertAdd_nil {κ : Type} [DecidableEq κ] (k : κ) (v : ℚ) :
    upsertAdd [] k v = [(k, v)] := rfl

theorem upsertAdd_cons {κ : Type} [DecidableEq κ] (ek : κ) (ev : ℚ) (rest : List (κ × ℚ))
    (k : κ) (v : ℚ) :
    upsertAdd ((ek, ev) :: rest) k v =
      if ek = k then (ek, ev + v) :: rest else (ek, ev) :: upsertAdd rest k v := rfl

theorem upsertSet_nil {κ : Type} [DecidableEq κ] (k : κ) (v : ℚ) :
    upsertSet [] k v = [(k, v)] := rfl

theorem upsertSet_cons {κ : Type} [DecidableEq κ] (ek : κ) (ev : ℚ) (rest : List (κ × ℚ))
    (k : κ) (v : ℚ) :
    upsertSet ((ek, ev) :: rest) k v =
      if ek = k then (ek, v) :: rest else (ek, ev) :: upsertSet rest k v := rfl

theorem assocFind_upsertAdd {κ : Type} [DecidableEq κ] (m : List (κ × ℚ)) (k : κ) (v : ℚ)
    (k' : κ) :
    assocFind (upsertAdd m k v) k' =
      if k' = k then some ((assocFind m k).getD 0 + v) else assocFind m k' := by
  induction m with
  | nil =>
    rw [upsertAdd_nil, assocFind_cons, assocFind_nil]
    by_cases h : k' = k
    · subst h
      simp [assocFind_nil]
    · have h2 : ¬ k = k' := fun hc => h hc.symm
      simp [h, h2]
  | cons e rest ih =>
    obtain ⟨ek, ev⟩ := e
    rw [upsertAdd_cons]
    by_cases hek : ek = k
    · subst hek
      rw [if_pos rfl]
      by_cases h : k' = ek
      · subst h
        simp [assocFind_cons]
      · have h2 : ¬ ek = k' := fun hc => h hc.symm
        simp [assocFind_cons, h, h2]
    · rw [if_neg hek]
      by_cases h : k' = ek
      · have h2 : ¬ k' = k := fun hc => hek (h.symm.trans hc)
        simp [assocFind_cons, h, h2, hek]
      · have h2 : ¬ ek = k' := fun hc => h hc.symm
        simp [assocFind_cons, h2, hek, ih]

theorem assocFind_upsertSet {κ : Type} [DecidableEq κ] (m : List (κ × ℚ)) (k : κ) (v : ℚ)
    (k' : κ) :
    assocFind (upsertSet m k v) k' = if k' = k then some v else assocFind m k' := by
  induction m with
  | nil =>
    rw [upsertSet_nil, assocFind_cons]
    by_cases h : k' = k
    · subst h
      simp
    · have h2 : ¬ k = k' := fun hc => h hc.symm
      simp [h, h2]
  | cons e rest ih =>
    obtain ⟨ek, ev⟩ := e
    rw [upsertSet_cons]
    by_cases hek : ek = k
    · subst hek
      rw [if_pos rfl]
      by_cases h : k' = ek
      · subst h
        simp [assocFind_cons]
      · have h2 : ¬ ek = k' := fun hc => h hc.symm
        simp [assocFind_cons, h, h2]
    · rw [if_neg hek]
      by_cases h : k' = ek
      · have h2 : ¬ k' = k := fun hc => hek (h.symm.trans hc)
        simp [assocFind_cons, h, h2, hek]
      · have h2 : ¬ ek = k' := fun hc => h hc.symm
        simp [assocFind_cons, h2, hek, ih]

theorem mem_keys_upsertAdd {κ : Type} [DecidableEq κ] (m : List (κ × ℚ)) (k : κ) (v : ℚ)
    (k' : κ) :
    k' ∈ (upsertAdd m k v).map Prod.fst ↔ k' ∈ m.map Prod.fst ∨ k' = k := by
  induction m with
  | nil => simp [upsertAdd_nil]
  | cons e rest ih =>
    obtain ⟨ek, ev⟩ := e
    by_cases hek : ek = k
    · subst hek
      rw [upsertAdd_cons, if_pos rfl]
      simp only [List.map_cons, List.mem_cons]
      tauto
    · rw [upsertAdd_cons, if_neg hek]
      simp only [List.map_cons, List.mem_cons, ih]
      tauto

theorem mem_keys_upsertSet {κ : Type} [DecidableEq κ] (m : List (κ × ℚ)) (k : κ) (v : ℚ)
    (k' : κ) :
    k' ∈ (upsertSet m k v).map Prod.fst ↔ k' ∈ m.map Prod.fst ∨ k' = k := by
  induction m with
  | nil => simp [upsertSet_nil]
  | cons e rest ih =>
    obtain ⟨ek, ev⟩ := e
    by_cases hek : ek = k
    · subst hek
      rw [upsertSet_cons, if_pos rfl]
      simp only [List.map_cons, List.mem_cons]
      tauto
    · rw [upsertSet_cons, if_neg hek]
      simp only [List.map_cons, List.mem_cons, ih]
      tauto

theorem nodup_keys_upsertAdd {κ : Type} [DecidableEq κ] (m : List (κ × ℚ)) (k : κ) (v : ℚ)
    (h : (m.map Prod.fst).Nodup) : ((upsertAdd m k v).map Prod.fst).Nodup := by
  induction m with
  | nil => simp [upsertAdd_nil]
  | cons e rest ih =>
    obtain ⟨ek, ev⟩ := e
    rw [List.map_cons, List.nodup_cons] at h
    by_cases hek : ek = k
    · subst hek
      rw [upsertAdd_cons, if_pos rfl, List.map_cons, List.nodup_cons]
      exact h
    · rw [upsertAdd_cons, if_neg hek, List.map_cons, List.nodup_cons]
      refine ⟨?_, ih h.2⟩
      rw [mem_keys_upsertAdd]
      push_neg
      exact ⟨h.1, hek⟩

theorem nodup_keys_upsertSet {κ : Type} [DecidableEq κ] (m : List (κ × ℚ)) (k : κ) (v : ℚ)
    (h : (m.map Prod.fst).Nodup) : ((upsertSet m k v).map Prod.fst).Nodup := by
  induction m with
  | nil => simp [upsertSet_nil]
  | cons e rest ih =>
    obtain ⟨ek, ev⟩ := e
    rw [List.map_cons, List.nodup_cons] at h
    by_cases hek : ek = k
    · subst hek
      rw [upsertSet_cons, if_pos rfl, List.map_cons, List.nodup_cons]
      exact h
    · rw [upsertSet_cons, if_neg hek, List.map_cons, List.nodup_cons]
      refine ⟨?_, ih h.2⟩
      rw [mem_keys_upsertSet]
      push_neg
      exact ⟨h.1, hek⟩

theorem assocFind_of_mem {κ : Type} [DecidableEq κ] (m : List (κ × ℚ)) (e : κ × ℚ)
    (hmem : e ∈ m) (hnd : (m.map Prod.fst).Nodup) : assocFind m e.1 = some e.2 := by
  induction m with
  | nil => exact absurd hmem (List.not_mem_nil e)
  | cons a rest ih =>
    obtain ⟨ak, av⟩ := a
    rw [List.map_cons, List.nodup_cons] at hnd
    rw [assocFind_cons]
    rcases List.mem_cons.mp hmem with heq | hmem'
    · subst heq
      rw [if_pos rfl]
    · by_cases hne : ak = e.1
      · exact absurd (hne ▸ List.mem_map.mpr ⟨e, hmem', rfl⟩) hnd.1
      · rw [if_neg hne]
        exact ih hmem' hnd.2

theorem cashLoop_nil (cum : ℚ) (m : List (ℕ × ℚ)) : cashLoop cum m [] = m := rfl

theorem cashLoop_cons (cum : ℚ) (m : List (ℕ × ℚ)) (f : CashFlow) (rest : List CashFlow) :
    cashLoop cum m (f :: rest) =
      cashLoop (cum + f.amount) (upsertSet m f.timestamp (cum + f.amount)) rest := rfl

theorem assocFind_foldl_upsertAdd {α κ : Type} [DecidableEq κ] (f : α → κ) (g : α → ℚ) :
    ∀ (items : List α) (m : List (κ × ℚ)) (k : κ),
      assocFind (items.foldl (fun acc i => upsertAdd acc (f i) (g i)) m) k =
        if k ∈ items.map f
        then some ((assocFind m k).getD 0 + ((items.filter (fun i => f i = k)).map g).sum)
        else assocFind m k := by
  intro items
  induction items with
  | nil => intro m k; simp
  | cons i rest ih =>
    intro m k
    rw [List.foldl_cons, ih (upsertAdd m (f i) (g i)) k]
    by_cases hk : k = f i
    · rw [hk]
      have hmem : f i ∈ (i :: rest).map f := by
        rw [List.map_cons]
        exact List.mem_cons_self _ _
      have hfilter : (i :: rest).filter (fun x => f x = f i) =
          i :: rest.filter (fun x => f x = f i) := by
        rw [List.filter_cons, if_pos (by simp)]
      rw [hfilter]
      by_cases hr : f i ∈ rest.map f
      · rw [if_pos hr, if_pos hmem, assocFind_upsertAdd, if_pos rfl, Option.getD_some]
        rw [List.map_cons, List.sum_cons]
        exact congrArg some (by ring)
      · rw [if_neg hr, if_pos hmem, assocFind_upsertAdd, if_pos rfl]
        have hnil : rest.filter (fun x => f x = f i) = [] := by
          rw [List.filter_eq_nil_iff]
          intro x hx hfx
          exact hr (List.mem_map.mpr ⟨x, hx, by simpa using hfx⟩)
        rw [hnil, List.map_cons, List.sum_cons]
        simp
    · have hfk : ¬ f i = k := fun hc => hk hc.symm
      have hfilter : (i :: rest).filter (fun x => f x = k) =
          rest.filter (fun x => f x = k) := by
        rw [List.filter_cons, if_neg (by simpa using hfk)]
      rw [hfilter]
      have hmem : (k ∈ (i :: rest).map f) ↔ (k ∈ rest.map f) := by
        rw [List.map_cons, List.mem_cons]
        exact or_iff_right hk
      by_cases hr : k ∈ rest.map f
      · rw [if_pos hr, if_pos (hmem.mpr hr), assocFind_upsertAdd, if_neg hk]
      · rw [if_neg hr, if_neg (fun hc => hr (hmem.mp hc)), assocFind_upsertAdd, if_neg hk]

theorem nodup_keys_foldl_upsertAdd {α κ : Type} [DecidableEq κ] (f : α → κ) (g : α → ℚ) :
    ∀ (items : List α) (m : List (κ × ℚ)), (m.map Prod.fst).Nodup →
      ((items.foldl (fun acc i => upsertAdd acc (f i) (g i)) m).map Prod.fst).Nodup := by
  intro items
  induction items with
  | nil => intro m h; exact h
  | cons i rest ih =>
    intro m h
    rw [List.foldl_cons]
    exact ih _ (nodup_keys_upsertAdd m (f i) (g i) h)

theorem nodup_keys_cashLoop :
    ∀ (flows : List CashFlow) (cum : ℚ) (m : List (ℕ × ℚ)), (m.map Prod.fst).Nodup →
      ((cashLoop cum m flows).map Prod.fst).Nodup := by
  intro flows
  induction flows with
  | nil => intro cum m h; exact h
  | cons fl rest ih =>
    intro cum m h
    rw [cashLoop_cons]
    exact ih _ _ (nodup_keys_upsertSet m fl.timestamp (cum + fl.amount) h)

theorem cashLoop_assocFind :
    ∀ (flows : List CashFlow), List.Pairwise (fun a b => a.timestamp ≤ b.timestamp) flows →
      ∀ (cum : ℚ) (m : List (ℕ × ℚ)) (t : ℕ),
        assocFind (cashLoop cum m flows) t =
          if t ∈ flows.map (·.timestamp)
          then some (cum + ((flows.filter (fun fl => fl.timestamp ≤ t)).map (·.amount)).sum)
          else assocFind m t := by
  intro flows
  induction flows with
  | nil => intro _ cum m t; simp [cashLoop_nil]
  | cons fl rest ih =>
    intro hp cum m t
    have hall : ∀ x ∈ rest, fl.timestamp ≤ x.timestamp := (List.pairwise_cons.mp hp).1
    have hrest := (List.pairwise_cons.mp hp).2
    rw [cashLoop_cons, ih hrest]
    by_cases hr : t ∈ rest.map (·.timestamp)
    · have hft : fl.timestamp ≤ t := by
        obtain ⟨x, hx, hxt⟩ := List.mem_map.mp hr
        exact hxt ▸ hall x hx
      have hmem : t ∈ (fl :: rest).map (·.timestamp) := by
        rw [List.map_cons]
        exact List.mem_cons_of_mem _ hr
      rw [if_pos hr, if_pos hmem, List.filter_cons, if_pos (by simpa using hft)]
      rw [List.map_cons, List.sum_cons]
      exact congrArg some (by ring)
    · rw [if_neg hr, assocFind_upsertSet]
      by_cases hft : t = fl.timestamp
      · have hmem : t ∈ (fl :: rest).map (·.timestamp) := by
          rw [List.map_cons]
          exact hft ▸ List.mem_cons_self _ _
        rw [if_pos hft, if_pos hmem]
        have hnil : rest.filter (fun x => x.timestamp ≤ t) = [] := by
          rw [List.filter_eq_nil_iff]
          intro x hx hxle
          have h1 : fl.timestamp ≤ x.timestamp := hall x hx
          have h2 : x.timestamp ≠ t := fun hc => hr (List.mem_map.mpr ⟨x, hx, hc⟩)
          have h3 : x.timestamp ≤ t := by simpa using hxle
          omega
        rw [List.filter_cons, if_pos (by simp [hft]), hnil]
        simp
      · have hmem : t ∉ (fl :: rest).map (·.timestamp) := by
          rw [List.map_cons, List.mem_cons]
          push_neg
          exact ⟨hft, hr⟩
        rw [if_neg hft, if_neg hmem]

instance : IsTotal CashFlow (fun a b => a.timestamp ≤ b.timestamp) :=
  ⟨fun a b => Nat.le_total a.timestamp b.timestamp⟩

instance : IsTrans CashFlow (fun a b => a.timestamp ≤ b.timestamp) :=
  ⟨fun _ _ _ h1 h2 => Nat.le_trans h1 h2⟩

instance : IsTotal (ℕ × ℚ) (fun a b => a.1 ≤ b.1) :=
  ⟨fun a b => Nat.le_total a.1 b.1⟩

instance : IsTrans (ℕ × ℚ) (fun a b => a.1 ≤ b.1) :=
  ⟨fun _ _ _ h1 h2 => Nat.le_trans h1 h2⟩

theorem calculate_series_position (snaps : List PosSnap) (cfs : Option (List CashFlow)) :
    (calculate_series snaps cfs).position_series =
      (sortPairsByKey (buildPositionMap snaps)).map
        (fun e => SeriesPoint.mk e.1 (round2 e.2)) := rfl

theorem calculate_series_total (snaps : List PosSnap) (cfs : Option (List CashFlow)) :
    (calculate_series snaps cfs).total_series =
      merge_series (calculate_series snaps cfs).position_series
        (calculate_series snaps cfs).cash_series := rfl

theorem calculate_series_cash_some (snaps : List PosSnap) (flows : List CashFlow) :
    (calculate_series snaps (some flows)).cash_series =
      if flows = [] then []
      else
        (sortPairsByKey (cashLoop 0 []
            (flows.insertionSort (fun a b => a.timestamp ≤ b.timestamp)))).map
          (fun e => SeriesPoint.mk e.1 (round2 e.2)) := rfl

/-- Every point of the position series carries the rounded full-precision
per-timestamp sum of the input snapshot values. -/
theorem position_series_val (snaps : List PosSnap) (cfs : Option (List CashFlow)) :
    ∀ q ∈ (calculate_series snaps cfs).position_series,
      q.val = round2 (posTotalAt snaps q.ts) := by
  intro q hq
  rw [calculate_series_position] at hq
  obtain ⟨e, he, rfl⟩ := List.mem_map.mp hq
  rw [sortPairsByKey] at he
  have he2 : e ∈ snaps.foldl (fun acc i => upsertAdd acc i.timestamp i.value) [] :=
    (List.mem_insertionSort _).mp he
  have hnd := nodup_keys_foldl_upsertAdd (fun s : PosSnap => s.timestamp)
    (fun s : PosSnap => s.value) snaps [] (by simp)
  have hfind := assocFind_of_mem _ e he2 hnd
  have hchar := assocFind_foldl_upsertAdd (fun s : PosSnap => s.timestamp)
    (fun s : PosSnap => s.value) snaps [] e.1
  have h3 := hfind.symm.trans hchar
  by_cases hm : e.1 ∈ snaps.map (fun s => s.timestamp)
  · rw [if_pos hm, assocFind_nil] at h3
    have h4 := Option.some.inj h3
    have h5 : e.2 = posTotalAt snaps e.1 := by
      rw [h4]
      simp [posTotalAt]
    show round2 e.2 = round2 (posTotalAt snaps e.1)
    exact congrArg round2 h5
  · rw [if_neg hm, assocFind_nil] at h3
    exact absurd h3 (by simp)

/-- Every point of the cumulative cash series carries the rounded
full-precision cumulative sum of the cash flows up to its timestamp. -/
theorem cash_series_val (snaps : List PosSnap) (flows : List CashFlow) :
    ∀ q ∈ (calculate_series snaps (some flows)).cash_series,
      q.val = round2 (cumCashAt flows q.ts) := by
  intro q hq
  rw [calculate_series_cash_some] at hq
  by_cases hnil : flows = []
  · rw [if_pos hnil] at hq
    exact absurd hq (List.not_mem_nil q)
  · rw [if_neg hnil] at hq
    obtain ⟨e, he, rfl⟩ := List.mem_map.mp hq
    rw [sortPairsByKey] at he
    have he2 : e ∈ cashLoop 0 []
        (flows.insertionSort (fun a b => a.timestamp ≤ b.timestamp)) :=
      (List.mem_insertionSort _).mp he
    have hnd := nodup_keys_cashLoop
      (flows.insertionSort (fun a b => a.timestamp ≤ b.timestamp)) 0 [] (by simp)
    have hfind := assocFind_of_mem _ e he2 hnd
    have hpair : List.Pairwise (fun a b => a.timestamp ≤ b.timestamp)
        (flows.insertionSort (fun a b => a.timestamp ≤ b.timestamp)) :=
      List.sorted_insertionSort _ _
    have hchar := cashLoop_assocFind _ hpair 0 [] e.1
    have h3 := hfind.symm.trans hchar
    by_cases hm : e.1 ∈
        (flows.insertionSort (fun a b => a.timestamp ≤ b.timestamp)).map (·.timestamp)
    · rw [if_pos hm] at h3
      have h4 := Option.some.inj h3
      have hperm : ((flows.insertionSort (fun a b => a.timestamp ≤ b.timestamp)).filter
            (fun fl => fl.timestamp ≤ e.1)).Perm
          (flows.filter (fun fl => fl.timestamp ≤ e.1)) :=
        (List.perm_insertionSort _ _).filter _
      have hsum := (hperm.map (·.amount)).sum_eq
      have h5 : e.2 = cumCashAt flows e.1 := by
        rw [h4, zero_add]
        unfold cumCashAt
        exact hsum
      show round2 e.2 = round2 (cumCashAt flows e.1)
      exact congrArg round2 h5
    · rw [if_neg hm] at h3
      rw [assocFind_nil] at h3
      exact absurd h3 (by simp)

/-- **C1.** For every pair of series (position series, cash series) whose
values are whole cents (as all series emitted by `calculate_series` are),
the merged total series of `PerformanceCalculator._merge_series` has
timestamp set exactly the union of the input timestamp sets, strictly
increasing with no duplicates, and its value at each timestamp is the
last known position value plus the last known cash value (both
accumulators starting at 0). -/
theorem C1_merge_series_spec (pos cash : List SeriesPoint)
    (h2dp : ∀ p ∈ pos ++ cash, CentMultiple p.val) :
    ((merge_series pos cash).map (·.ts) = sortedTimestamps pos cash) ∧
    (∀ t : ℕ, t ∈ (merge_series pos cash).map (·.ts) ↔
      (t ∈ pos.map (·.ts) ∨ t ∈ cash.map (·.ts))) ∧
    List.Sorted (· < ·) ((merge_series pos cash).map (·.ts)) ∧
    (∀ q ∈ merge_series pos cash,
      q.val = lastKnown pos q.ts + lastKnown cash q.ts) := by
  have hts : (merge_series pos cash).map (·.ts) = sortedTimestamps pos cash := by
    rw [merge_series_eq, List.map_map]
    have hcompid : ((fun p : SeriesPoint => p.ts) ∘ fun t =>
        SeriesPoint.mk t (round2 (lastKnown pos t + lastKnown cash t))) = id := rfl
    rw [hcompid, List.map_id]
  refine ⟨hts, ?_, ?_, ?_⟩
  · intro t
    rw [hts, mem_sortedTimestamps]
  · rw [hts]
    exact sortedTimestamps_sorted_lt pos cash
  · intro q hq
    rw [merge_series_eq] at hq
    obtain ⟨t, _, rfl⟩ := List.mem_map.mp hq
    show round2 (lastKnown pos t + lastKnown cash t) = _
    have hpos : CentMultiple (lastKnown pos t) :=
      lastKnown_centMultiple pos t
        (fun p hp => h2dp p (List.mem_append.mpr (Or.inl hp)))
    have hcash : CentMultiple (lastKnown cash t) :=
      lastKnown_centMultiple cash t
        (fun p hp => h2dp p (List.mem_append.mpr (Or.inr hp)))
    exact round2_eq_self (centMultiple_add hpos hcash)

/-- Position series of the C1 forward-fill scenario: Jan 1 ↦ 1000,
Jan 3 ↦ 1100 (days numbered 1-3). -/
def C1pos : List SeriesPoint := [⟨1, 1000⟩, ⟨3, 1100⟩]

/-- Cash series of the C1 forward-fill scenario: Jan 2 ↦ 50. -/
def C1cash : List SeriesPoint := [⟨2, 50⟩]

/-- Witness for C1 on the spec's forward-fill scenario: the merged series
is `[(Jan1,1000),(Jan2,1050),(Jan3,1150)]`, and the value 1050 at Jan 2
is exactly carried-forward position plus last cash. -/
theorem C1_merge_series_witness :
    merge_series C1pos C1cash = [⟨1, 1000⟩, ⟨2, 1050⟩, ⟨3, 1150⟩] ∧
    SeriesPoint.val ⟨2, 1050⟩ = lastKnown C1pos 2 + lastKnown C1cash 2 := by
  have hcm : ∀ p ∈ C1pos ++ C1cash, CentMultiple p.val := by
    intro p hp
    fin_cases hp
    · exact ⟨100000, by norm_num⟩
    · exact ⟨110000, by norm_num⟩
    · exact ⟨5000, by norm_num⟩
  have p1 : lastKnown C1pos 1 = 1000 := by
    unfold lastKnown
    rw [show ((C1pos.map (·.ts)).filter (fun x => x ≤ 1)).max? = some 1 from by decide]
    rfl
  have p2 : lastKnown C1pos 2 = 1000 := by
    unfold lastKnown
    rw [show ((C1pos.map (·.ts)).filter (fun x => x ≤ 2)).max? = some 1 from by decide]
    rfl
  have p3 : lastKnown C1pos 3 = 1100 := by
    unfold lastKnown
    rw [show ((C1pos.map (·.ts)).filter (fun x => x ≤ 3)).max? = some 3 from by decide]
    rfl
  have c1 : lastKnown C1cash 1 = 0 := by
    unfold lastKnown
    rw [show ((C1cash.map (·.ts)).filter (fun x => x ≤ 1)).max? = none from by decide]
  have c2 : lastKnown C1cash 2 = 50 := by
    unfold lastKnown
    rw [show ((C1cash.map (·.ts)).filter (fun x => x ≤ 2)).max? = some 2 from by decide]
    rfl
  have c3 : lastKnown C1cash 3 = 50 := by
    unfold lastKnown
    rw [show ((C1cash.map (·.ts)).filter (fun x => x ≤ 3)).max? = some 2 from by decide]
    rfl
  have hcomp : merge_series C1pos C1cash = [⟨1, 1000⟩, ⟨2, 1050⟩, ⟨3, 1150⟩] := by
    rw [merge_series_eq]
    rw [show sortedTimestamps C1pos C1cash = [1, 2, 3] from by decide]
    rw [List.map_cons, List.map_cons, List.map_cons, List.map_nil]
    rw [p1, p2, p3, c1, c2, c3]
    norm_num [round2, round_eq]
  refine ⟨hcomp, ?_⟩
  have h := (C1_merge_series_spec C1pos C1cash hcm).2.2.2 ⟨2, 1050⟩
    (by rw [hcomp]; exact List.mem_cons_of_mem _ (List.mem_cons_self _ _))
  exact h

/-- The cumulative cash term of `TotalsCalculator.calculate`
(lines 41-46), standalone. -/
def totalsCash (cash_flows : Option (List CashFlow)) (end_timestamp : Option ℕ) : ℚ :=
  match cash_flows, end_timestamp with
  | some flows, some et => ((flows.filter (fun f => f.timestamp ≤ et)).map (·.amount)).sum
  | _, _ => 0

theorem totals_calculate_eq (ss es : List PosSnap) (cf : Option (List CashFlow))
    (et : Option ℕ) :
    totals_calculate ss es cf et =
      ((ss.map (·.value)).sum,
       (es.map (·.value)).sum + totalsCash cf et,
       (es.map (·.value)).sum + totalsCash cf et - (ss.map (·.value)).sum,
       if 0 < (ss.map (·.value)).sum
       then ((es.map (·.value)).sum + totalsCash cf et - (ss.map (·.value)).sum) /
              (ss.map (·.value)).sum * 100
       else if (es.map (·.value)).sum + totalsCash cf et = 0 then 0 else 100) := rfl

theorem calculate_delta_eq (series : List SeriesPoint) (h : 2 ≤ series.length) :
    calculate_delta series =
      ((series.getLast?.map (·.val)).getD 0 - (series.head?.map (·.val)).getD 0,
       if 0 < (series.head?.map (·.val)).getD 0
       then ((series.getLast?.map (·.val)).getD 0 - (series.head?.map (·.val)).getD 0) /
              (series.head?.map (·.val)).getD 0 * 100
       else if (series.getLast?.map (·.val)).getD 0 = 0 then 0 else 100) := by
  rw [calculate_delta, if_neg (by omega)]

/-- **C3.** Both the totals calculator and the performance delta
calculator compute `percent = absolute/start * 100` when `start > 0` and
`100` vs `0` (by end value being non-zero or zero) when `start = 0`; the
delta of an empty series is all zeros, and totals with an empty start
and a 1000-valued end snapshot yield a 100 percent delta. -/
theorem C3_percent_delta_rules :
    (∀ (ss es : List PosSnap) (cf : Option (List CashFlow)) (et : Option ℕ),
      (0 < (totals_calculate ss es cf et).1 →
        (totals_calculate ss es cf et).2.2.2 =
          (totals_calculate ss es cf et).2.2.1 / (totals_calculate ss es cf et).1 * 100) ∧
      ((totals_calculate ss es cf et).1 = 0 →
        (totals_calculate ss es cf et).2.2.2 =
          if (totals_calculate ss es cf et).2.1 = 0 then 0 else 100)) ∧
    (∀ series : List SeriesPoint, 2 ≤ series.length →
      ((calculate_delta series).1 =
        (series.getLast?.map (·.val)).getD 0 - (series.head?.map (·.val)).getD 0) ∧
      (0 < (series.head?.map (·.val)).getD 0 →
        (calculate_delta series).2 =
          (calculate_delta series).1 / (series.head?.map (·.val)).getD 0 * 100) ∧
      ((series.head?.map (·.val)).getD 0 = 0 →
        (calculate_delta series).2 =
          if (series.getLast?.map (·.val)).getD 0 = 0 then 0 else 100)) ∧
    (calculate_delta [] = (0, 0)) ∧
    (totals_calculate [] [PosSnap.mk 1 none none 0 none 1000 1] none none =
      (0, 1000, 1000, 100)) := by
  refine ⟨?_, ?_, rfl, ?_⟩
  · intro ss es cf et
    rw [totals_calculate_eq]
    constructor
    · intro h
      show (if 0 < (ss.map (·.value)).sum then _ else _) = _
      rw [if_pos h]
    · intro h
      have h2 : (ss.map (·.value)).sum = 0 := h
      show (if 0 < (ss.map (·.value)).sum then _ else _) = _
      rw [if_neg (by rw [h2]; exact lt_irrefl 0)]
  · intro series hlen
    rw [calculate_delta_eq series hlen]
    refine ⟨rfl, ?_, ?_⟩
    · intro h
      show (if 0 < (series.head?.map (·.val)).getD 0 then _ else _) = _
      rw [if_pos h]
    · intro h
      have h2 : (series.head?.map (·.val)).getD 0 = 0 := h
      show (if 0 < (series.head?.map (·.val)).getD 0 then _ else _) = _
      rw [if_neg (by rw [h2]; exact lt_irrefl 0)]
  · rw [totals_calculate_eq]
    have hs : (([] : List PosSnap).map (·.value)).sum = 0 := rfl
    have he : (([PosSnap.mk 1 none none 0 none 1000 1]).map (·.value)).sum + totalsCash none none =
        1000 := by
      show (1000 : ℚ) + 0 + 0 = 1000
      norm_num
    rw [hs, he]
    rw [if_neg (lt_irrefl 0), if_neg (by norm_num)]
    norm_num

/-- Start snapshots for the C3 witness: one 200-valued position. -/
def C3start : List PosSnap := [⟨1, none, none, 0, none, 200, 1⟩]

/-- End snapshots for the C3 witness: one 300-valued position. -/
def C3endSnaps : List PosSnap := [⟨2, none, none, 0, none, 300, 2⟩]

/-- Witness for C3: a positive 200 → 300 move uses the ratio formula, and
the zero-start scenario with a 1000-valued end yields 100 percent. -/
theorem C3_percent_delta_rules_witness :
    ((totals_calculate C3start C3endSnaps none none).2.2.2 =
      (totals_calculate C3start C3endSnaps none none).2.2.1 /
        (totals_calculate C3start C3endSnaps none none).1 * 100) ∧
    totals_calculate [] [PosSnap.mk 1 none none 0 none 1000 1] none none =
      (0, 1000, 1000, 100) := by
  constructor
  · refine (C3_percent_delta_rules.1 C3start C3endSnaps none none).1 ?_
    rw [totals_calculate_eq]
    show (0 : ℚ) < ((C3start.map (·.value)).sum)
    show (0 : ℚ) < 200 + 0
    norm_num
  · exact C3_percent_delta_rules.2.2.2

/-- **C10.** A series with fewer than two points yields the zero delta
pair from `calculate_delta`, whatever its values. -/
theorem C10_delta_short_series (series : List SeriesPoint)
    (h : series.length < 2) : calculate_delta series = (0, 0) := by
  rw [calculate_delta, if_pos h]

/-- Witness for C10: a single point with the non-zero value 7 still
yields `(0, 0)`. -/
theorem C10_delta_short_series_witness :
    calculate_delta [SeriesPoint.mk 1 7] = (0, 0) :=
  C10_delta_short_series [SeriesPoint.mk 1 7] (by simp)

/-- **C9 (amended).** Accumulation within a timestamp is at full
precision, but every emitted series point is rounded to 2 decimals as it
is built, not only at the final assembly boundary: each position-series
value is `round2` of the raw per-timestamp sum, each cash-series value
is `round2` of the raw cumulative sum, and each merged value is `round2`
of the sum of the (already rounded) last-known series values. -/
theorem C9_rounding_amended (snaps : List PosSnap) (flows : List CashFlow) :
    (∀ q ∈ (calculate_series snaps (some flows)).position_series,
      q.val = round2 (posTotalAt snaps q.ts)) ∧
    (∀ q ∈ (calculate_series snaps (some flows)).cash_series,
      q.val = round2 (cumCashAt flows q.ts)) ∧
    (∀ q ∈ (calculate_series snaps (some flows)).total_series,
      q.val = round2
        (lastKnown (calculate_series snaps (some flows)).position_series q.ts +
         lastKnown (calculate_series snaps (some flows)).cash_series q.ts)) := by
  refine ⟨position_series_val snaps (some flows), cash_series_val snaps flows, ?_⟩
  intro q hq
  rw [calculate_series_total, merge_series_eq] at hq
  obtain ⟨t, _, rfl⟩ := List.mem_map.mp hq
  rfl

/-- Snapshot whose raw value 1/250 = 0.004 rounds to 0 cents. -/
def C9snap : PosSnap := ⟨1, none, none, 0, none, 1/250, 7⟩

/-- Cash flow whose raw amount 1/250 = 0.004 rounds to 0 cents. -/
def C9flow : CashFlow := ⟨none, 7, 1/250⟩

/-- Witness for C9 (amended) at the concrete snapshot `C9snap`: the one
position-series point's value is the rounded raw sum. -/
theorem C9_rounding_amended_witness :
    SeriesPoint.val ⟨7, round2 (1/250)⟩ = round2 (posTotalAt [C9snap] 7) :=
  (C9_rounding_amended [C9snap] [C9flow]).1 ⟨7, round2 (1/250)⟩
    (List.mem_cons_self _ _)

/-- **C9 counterexample.** The claim "values are carried at full
precision until the dashboard DTO is assembled" fails: with a 0.004
position and a 0.004 cash flow at the same timestamp, the full-precision
total 0.008 would round to 0.01 at assembly, but the code emits 0
because each series point was already rounded to 0 before merging. -/
theorem C9_counterexample :
    posTotalAt [C9snap] 7 + cumCashAt [C9flow] 7 = 1/125 ∧
    round2 (1/125 : ℚ) = 1/100 ∧
    (calculate_series [C9snap] (some [C9flow])).total_series = [⟨7, 0⟩] ∧
    (0 : ℚ) ≠ 1/100 := by
  have e1 : round2 (1/250 : ℚ) = 0 := by norm_num [round2, round_eq]
  have e2 : round2 ((0 : ℚ) + 1/250) = 0 := by norm_num [round2, round_eq]
  have e3 : round2 ((0 : ℚ) + 0) = 0 := by norm_num [round2, round_eq]
  refine ⟨?_, ?_, ?_, by norm_num⟩
  · show (1/250 : ℚ) + 0 + ((1/250 : ℚ) + 0) = 1/125
    norm_num
  · norm_num [round2, round_eq]
  · have htot : (calculate_series [C9snap] (some [C9flow])).total_series =
        [⟨7, round2 (round2 (1/250) + round2 (0 + 1/250))⟩] := rfl
    rw [htot, e1, e2, e3]

/-!
### Datetimes

Proleptic-Gregorian calendar model of Python's naive `datetime`
(`models/time_range.py`, `queries/positions.py`).  `toOrdinal` is
CPython's `date.toordinal` (day 1 = 0001-01-01), `weekday` is
`date.weekday` (0 = Monday), and day-subtraction (`timedelta(days=k)`)
is `k` iterations of the previous-day step.
-/

structure DateTime where
  year : ℕ
  month : ℕ
  day : ℕ
  hour : ℕ
  minute : ℕ
  second : ℕ
  microsecond : ℕ
deriving DecidableEq, Repr

/-- Gregorian leap year, as in CPython's `datetime._is_leap`. -/
def isLeap (y : ℕ) : Prop := y % 4 = 0 ∧ (y % 100 ≠ 0 ∨ y % 400 = 0)

instance (y : ℕ) : Decidable (isLeap y) := by
  unfold isLeap
  infer_instance

/-- CPython `_days_in_month` (0 for out-of-range months). -/
def daysInMonth (y m : ℕ) : ℕ :=
  match m with
  | 1 => 31 | 2 => if isLeap y then 29 else 28 | 3 => 31 | 4 => 30
  | 5 => 31 | 6 => 30 | 7 => 31 | 8 => 31 | 9 => 30 | 10 => 31
  | 11 => 30 | 12 => 31 | _ => 0

/-- CPython `_DAYS_BEFORE_MONTH` table. -/
def daysBeforeMonthBase (m : ℕ) : ℕ :=
  match m with
  | 1 => 0 | 2 => 31 | 3 => 59 | 4 => 90 | 5 => 120 | 6 => 151
  | 7 => 181 | 8 => 212 | 9 => 243 | 10 => 273 | 11 => 304 | 12 => 334
  | _ => 0

/-- CPython `_days_before_month`. -/
def daysBeforeMonth (y m : ℕ) : ℕ :=
  daysBeforeMonthBase m + (if 3 ≤ m ∧ isLeap y then 1 else 0)

/-- CPython `_days_before_year` (`y*365 + y//4 - y//100 + y//400` for
`y = year - 1`; rearranged so ℕ subtraction never truncates, since
`z/100 ≤ z/4`). -/
def daysBeforeYear (y : ℕ) : ℕ :=
  365 * (y - 1) + (y - 1) / 4 + (y - 1) / 400 - (y - 1) / 100

/-- CPython `date.toordinal`. -/
def toOrdinal (t : DateTime) : ℕ :=
  daysBeforeYear t.year + daysBeforeMonth t.year t.month + t.day

/-- CPython `date.weekday` (0 = Monday; ordinal 1 was a Monday). -/
def weekday (t : DateTime) : ℕ := (toOrdinal t + 6) % 7

/-- A datetime Python could construct. -/
def ValidDT (t : DateTime) : Prop :=
  1 ≤ t.year ∧ 1 ≤ t.month ∧ t.month ≤ 12 ∧ 1 ≤ t.day ∧
  t.day ≤ daysInMonth t.year t.month ∧ t.hour < 24 ∧ t.minute < 60 ∧
  t.second < 60 ∧ t.microsecond < 1000000

instance (t : DateTime) : Decidable (ValidDT t) := by
  unfold ValidDT
  infer_instance

/-- `timestamp.replace(hour=0, minute=0, second=0, microsecond=0)`. -/
def zeroTime (t : DateTime) : DateTime :=
  ⟨t.year, t.month, t.day, 0, 0, 0, 0⟩

/-- Calendar step to the previous day (how `timedelta(days=1)`
subtraction acts on the date part; the time of day is kept, as Python
keeps it). -/
def prevDay (t : DateTime) : DateTime :=
  if 2 ≤ t.day then ⟨t.year, t.month, t.day - 1, t.hour, t.minute, t.second, t.microsecond⟩
  else if 2 ≤ t.month then
    ⟨t.year, t.month - 1, daysInMonth t.year (t.month - 1), t.hour, t.minute, t.second,
     t.microsecond⟩
  else ⟨t.year - 1, 12, 31, t.hour, t.minute, t.second, t.microsecond⟩

/-- `timestamp - timedelta(days=k)`. -/
def subDays (k : ℕ) (t : DateTime) : DateTime := prevDay^[k] t

/-- Linear key: microseconds from the epoch 0001-01-01T00:00:00.  For
valid datetimes this orders and distinguishes datetimes exactly as
Python's field-lexicographic comparison does. -/
def dtKey (t : DateTime) : ℕ :=
  (toOrdinal t * 86400 + (t.hour * 60 + t.minute) * 60 + t.second) * 1000000 + t.microsecond

/-- `TimeGranularity` (`models/time_range.py`, lines 10-14). -/
inductive TimeGranularity where
  | daily
  | weekly
  | monthly
deriving DecidableEq, Repr

/-- `_get_bucket_key` (`queries/positions.py`, lines 105-129).  The
source's trailing `else: daily` branch is unreachable for the
three-valued enum. -/
def get_bucket_key (timestamp : DateTime) (granularity : TimeGranularity) : DateTime :=
  match granularity with
  | .daily => zeroTime timestamp
  | .weekly => zeroTime (subDays (weekday timestamp) timestamp)
  | .monthly => zeroTime ⟨timestamp.year, timestamp.month, 1, timestamp.hour,
      timestamp.minute, timestamp.second, timestamp.microsecond⟩

theorem daysInMonth_ge28 (y m : ℕ) (h1 : 1 ≤ m) (h12 : m ≤ 12) :
    28 ≤ daysInMonth y m := by
  interval_cases m <;> simp [daysInMonth] <;> split_ifs <;> omega

theorem daysBeforeMonth_step (y m : ℕ) (h2 : 2 ≤ m) (h12 : m ≤ 12) :
    daysBeforeMonth y m = daysBeforeMonth y (m - 1) + daysInMonth y (m - 1) := by
  interval_cases m <;>
    by_cases hl : isLeap y <;>
      simp [daysBeforeMonth, daysBeforeMonthBase, daysInMonth, hl]

set_option maxHeartbeats 1600000 in
theorem daysBeforeYear_step (y : ℕ) (h : 2 ≤ y) :
    daysBeforeYear y = daysBeforeYear (y - 1) + 365 + (if isLeap (y - 1) then 1 else 0) := by
  by_cases hl : isLeap (y - 1)
  · rw [if_pos hl]
    unfold isLeap at hl
    unfold daysBeforeYear
    omega
  · rw [if_neg hl]
    unfold isLeap at hl
    unfold daysBeforeYear
    omega

theorem toOrdinal_pos (t : DateTime) (hv : ValidDT t) : 1 ≤ toOrdinal t := by
  obtain ⟨_, _, _, hd1, _⟩ := hv
  unfold toOrdinal
  omega

theorem toOrdinal_zeroTime (t : DateTime) : toOrdinal (zeroTime t) = toOrdinal t := rfl

theorem prevDay_spec (t : DateTime) (hv : ValidDT t) (h2 : 2 ≤ toOrdinal t) :
    ValidDT (prevDay t) ∧ toOrdinal (prevDay t) = toOrdinal t - 1 ∧
    (prevDay t).hour = t.hour ∧ (prevDay t).minute = t.minute ∧
    (prevDay t).second = t.second ∧ (prevDay t).microsecond = t.microsecond := by
  obtain ⟨hy, hm1, hm12, hd1, hdm, hh, hmin, hs, hus⟩ := hv
  by_cases hd : 2 ≤ t.day
  · rw [prevDay, if_pos hd]
    refine ⟨?_, ?_, rfl, rfl, rfl, rfl⟩
    · unfold ValidDT
      dsimp only
      exact ⟨hy, hm1, hm12, by omega, by omega, hh, hmin, hs, hus⟩
    · unfold toOrdinal
      dsimp only
      omega
  · by_cases hm : 2 ≤ t.month
    · rw [prevDay, if_neg hd, if_pos hm]
      have hstep := daysBeforeMonth_step t.year t.month hm hm12
      have hge := daysInMonth_ge28 t.year (t.month - 1) (by omega) (by omega)
      refine ⟨?_, ?_, rfl, rfl, rfl, rfl⟩
      · unfold ValidDT
        dsimp only
        exact ⟨hy, by omega, by omega, by omega, le_refl _, hh, hmin, hs, hus⟩
      · unfold toOrdinal
        dsimp only
        omega
    · have hm1t : t.month = 1 := by omega
      have hd1t : t.day = 1 := by omega
      rw [prevDay, if_neg hd, if_neg hm]
      have hord1 : toOrdinal t = daysBeforeYear t.year + 1 := by
        unfold toOrdinal
        rw [hm1t, hd1t]
        have hbm : daysBeforeMonth t.year 1 = 0 := rfl
        rw [hbm]
      have hy2 : 2 ≤ t.year := by
        by_contra hc
        have hy1 : t.year = 1 := by omega
        rw [hy1] at hord1
        unfold daysBeforeYear at hord1
        omega
      have hstep := daysBeforeYear_step t.year hy2
      have hdim12 : daysInMonth (t.year - 1) 12 = 31 := rfl
      have hbm12 : daysBeforeMonth (t.year - 1) 12 =
          334 + (if isLeap (t.year - 1) then 1 else 0) := by
        simp [daysBeforeMonth, daysBeforeMonthBase]
      refine ⟨?_, ?_, rfl, rfl, rfl, rfl⟩
      · unfold ValidDT
        dsimp only
        exact ⟨by omega, by omega, by omega, by omega, by rw [hdim12], hh, hmin, hs, hus⟩
      · unfold toOrdinal
        dsimp only
        have hbm : daysBeforeMonth t.year 1 = 0 := rfl
        rw [hbm12, hstep, hm1t, hd1t, hbm]
        split_ifs <;> omega

theorem subDays_spec (t : DateTime) (hv : ValidDT t) :
    ∀ k : ℕ, k < toOrdinal t →
      ValidDT (subDays k t) ∧ toOrdinal (subDays k t) = toOrdinal t - k ∧
      (subDays k t).hour = t.hour ∧ (subDays k t).minute = t.minute ∧
      (subDays k t).second = t.second ∧ (subDays k t).microsecond = t.microsecond := by
  intro k
  induction k with
  | zero =>
    intro _
    refine ⟨hv, ?_, rfl, rfl, rfl, rfl⟩
    show toOrdinal t = toOrdinal t - 0
    omega
  | succ k ih =>
    intro hk
    obtain ⟨hv', hord', hh', hmin', hs', hus'⟩ := ih (by omega)
    have h2 : 2 ≤ toOrdinal (subDays k t) := by omega
    obtain ⟨hv'', hord'', hh'', hmin'', hs'', hus''⟩ := prevDay_spec (subDays k t) hv' h2
    have hiter : subDays (k + 1) t = prevDay (subDays k t) :=
      Function.iterate_succ_apply' prevDay k t
    rw [hiter]
    exact ⟨hv'', by omega, hh''.trans hh', hmin''.trans hmin', hs''.trans hs',
      hus''.trans hus'⟩

theorem weekday_lt_ordinal (t : DateTime) (h1 : 1 ≤ toOrdinal t) :
    weekday t < toOrdinal t := by
  unfold weekday
  omega

/-- **C7.** Bucketing is idempotent: for every (valid) timestamp and
granularity, `bucketStart(bucketStart(t, g), g) = bucketStart(t, g)`. -/
theorem C7_bucket_idempotent (t : DateTime) (g : TimeGranularity) (hv : ValidDT t) :
    get_bucket_key (get_bucket_key t g) g = get_bucket_key t g := by
  cases g with
  | daily => rfl
  | monthly => rfl
  | weekly =>
    have h1 : 1 ≤ toOrdinal t := toOrdinal_pos t hv
    have hwd : weekday t < toOrdinal t := weekday_lt_ordinal t h1
    obtain ⟨_, hord, _, _, _, _⟩ := subDays_spec t hv (weekday t) hwd
    show zeroTime (subDays (weekday (zeroTime (subDays (weekday t) t)))
        (zeroTime (subDays (weekday t) t))) = zeroTime (subDays (weekday t) t)
    have hordz : toOrdinal (zeroTime (subDays (weekday t) t)) = toOrdinal t - weekday t := by
      rw [toOrdinal_zeroTime]
      exact hord
    have hwd0 : weekday (zeroTime (subDays (weekday t) t)) = 0 := by
      show (toOrdinal (zeroTime (subDays (weekday t) t)) + 6) % 7 = 0
      rw [hordz]
      show (toOrdinal t - (toOrdinal t + 6) % 7 + 6) % 7 = 0
      omega
    rw [hwd0]
    rfl

/-- Witness for C7: a concrete Sunday-afternoon timestamp under WEEKLY
bucketing. -/
theorem C7_bucket_idempotent_witness :
    get_bucket_key (get_bucket_key ⟨2025, 10, 12, 15, 30, 0, 0⟩ .weekly) .weekly =
      get_bucket_key ⟨2025, 10, 12, 15, 30, 0, 0⟩ .weekly :=
  C7_bucket_idempotent ⟨2025, 10, 12, 15, 30, 0, 0⟩ .weekly (by decide)

/-- `TimeRange` value object (`models/time_range.py`, lines 17-22). -/
structure TimeRange where
  start_date : Option DateTime
  end_date : DateTime
  granularity : TimeGranularity
deriving DecidableEq, Repr

/-- The first `__post_init__` condition:
`self.start_date and self.start_date > self.end_date`. -/
def startAfterEnd (start_date : Option DateTime) (end_date : DateTime) : Prop :=
  match start_date with
  | some s => dtKey end_date < dtKey s
  | none => False

instance (sd : Option DateTime) (ed : DateTime) : Decidable (startAfterEnd sd ed) := by
  unfold startAfterEnd
  cases sd <;> infer_instance

/-- `TimeRange` construction with its `__post_init__` validation
(lines 24-29).  The `datetime.now()` read inside the validator is
modelled by the same `now` that `from_shorthand` uses; the real second
read happens microseconds later, so `end_date > now` evaluates the same
way. -/
def mkTimeRange (now : DateTime) (start_date : Option DateTime) (end_date : DateTime)
    (granularity : TimeGranularity) : Except String TimeRange :=
  if startAfterEnd start_date end_date then
    Except.error "start_date must be <= end_date"
  else if dtKey now < dtKey end_date then
    Except.error "Cannot project future dashboards"
  else Except.ok ⟨start_date, end_date, granularity⟩

/-- `TimeRange.from_shorthand` (lines 31-58).  The Python version builds
the whole mapping dict and then tests membership; the if-chain is the
same function of the shorthand. -/
def from_shorthand (now : DateTime) (shorthand : String) : Except String TimeRange :=
  if shorthand = "1M" then mkTimeRange now (some (subDays 30 now)) now .daily
  else if shorthand = "3M" then mkTimeRange now (some (subDays 90 now)) now .daily
  else if shorthand = "1Y" then mkTimeRange now (some (subDays 365 now)) now .weekly
  else if shorthand = "ALL" then mkTimeRange now none now .monthly
  else Except.error "Unknown shorthand"

/-- **C6.** For any valid `now` at least a year after the epoch:
`from_shorthand` errors exactly on shorthands outside
`{1M, 3M, 1Y, ALL}`, every accepted shorthand constructs successfully,
and `TimeRange` construction errors exactly when `start > end` or `end`
is in the future. -/
theorem C6_time_range_validation (now : DateTime) (hv : ValidDT now)
    (hord : 365 < toOrdinal now) :
    (∀ s : String, s ∉ ["1M", "3M", "1Y", "ALL"] →
      from_shorthand now s = Except.error "Unknown shorthand") ∧
    (∀ s ∈ ["1M", "3M", "1Y", "ALL"],
      ∃ tr : TimeRange, from_shorthand now s = Except.ok tr) ∧
    (∀ (sd : Option DateTime) (ed : DateTime) (g : TimeGranularity),
      (∃ e, mkTimeRange now sd ed g = Except.error e) ↔
        (startAfterEnd sd ed ∨ dtKey now < dtKey ed)) := by
  have hok : ∀ k : ℕ, k < toOrdinal now → ∀ g : TimeGranularity,
      ∃ tr, mkTimeRange now (some (subDays k now)) now g = Except.ok tr := by
    intro k hk g
    obtain ⟨_, hordk, hh, hmin, hs, hus⟩ := subDays_spec now hv k hk
    have hc1 : ¬ startAfterEnd (some (subDays k now)) now := by
      show ¬ dtKey now < dtKey (subDays k now)
      unfold dtKey
      rw [hordk, hh, hmin, hs, hus]
      have hle : toOrdinal now - k ≤ toOrdinal now := Nat.sub_le _ _
      intro hc
      omega
    have hc2 : ¬ dtKey now < dtKey now := lt_irrefl _
    exact ⟨_, by unfold mkTimeRange; rw [if_neg hc1, if_neg hc2]⟩
  refine ⟨?_, ?_, ?_⟩
  · intro s hs
    simp only [List.mem_cons, List.not_mem_nil, or_false, not_or] at hs
    obtain ⟨h1, h2, h3, h4⟩ := hs
    unfold from_shorthand
    rw [if_neg h1, if_neg h2, if_neg h3, if_neg h4]
  · intro s hs
    fin_cases hs
    · unfold from_shorthand
      rw [if_pos rfl]
      exact hok 30 (by omega) .daily
    · unfold from_shorthand
      rw [if_neg (by decide), if_pos rfl]
      exact hok 90 (by omega) .daily
    · unfold from_shorthand
      rw [if_neg (by decide), if_neg (by decide), if_pos rfl]
      exact hok 365 (by omega) .weekly
    · unfold from_shorthand
      rw [if_neg (by decide), if_neg (by decide), if_neg (by decide), if_pos rfl]
      have hc1 : ¬ startAfterEnd none now := fun hc => hc
      have hc2 : ¬ dtKey now < dtKey now := lt_irrefl _
      exact ⟨_, by unfold mkTimeRange; rw [if_neg hc1, if_neg hc2]⟩
  · intro sd ed g
    constructor
    · rintro ⟨e, he⟩
      by_cases h1 : startAfterEnd sd ed
      · exact Or.inl h1
      · unfold mkTimeRange at he
        rw [if_neg h1] at he
        by_cases h2 : dtKey now < dtKey ed
        · exact Or.inr h2
        · rw [if_neg h2] at he
          exact Except.noConfusion he
    · intro h
      unfold mkTimeRange
      by_cases h1 : startAfterEnd sd ed
      · rw [if_pos h1]
        exact ⟨_, rfl⟩
      · rcases h with h | h2
        · exact absurd h h1
        · rw [if_neg h1, if_pos h2]
          exact ⟨_, rfl⟩

/-- `now` used by the C6 witness. -/
def C6now : DateTime := ⟨2025, 10, 12, 0, 0, 0, 0⟩

/-- Witness for C6: "2Y" is rejected, "1M" constructs, and a range whose
end is one day past `now` is rejected. -/
theorem C6_time_range_validation_witness :
    from_shorthand C6now "2Y" = Except.error "Unknown shorthand" ∧
    (from_shorthand C6now "1M").isOk = true ∧
    (mkTimeRange C6now none ⟨2025, 10, 13, 0, 0, 0, 0⟩ .daily).isOk = false := by
  have h := C6_time_range_validation C6now (by decide) (by decide)
  refine ⟨h.1 "2Y" (by decide), ?_, ?_⟩
  · obtain ⟨tr, htr⟩ := h.2.1 "1M" (by decide)
    rw [htr]
    rfl
  · obtain ⟨e, he⟩ := (h.2.2 none ⟨2025, 10, 13, 0, 0, 0, 0⟩ .daily).mpr
      (Or.inr (by decide))
    rw [he]
    rfl

/-!
### Position snapshot queries (`queries/positions.py`)

The database is modelled as the list of this user's `PortfolioSnapshot`
rows, each carrying its `PositionSnapshot` child rows; the query's
`ORDER BY timestamp DESC` is a stable sort on the timestamp key.
-/

/-- A `PositionSnapshot` table row (nullable columns as `Option`). -/
structure PositionSnapshotRow where
  id : ℕ
  ticker : Option String
  shares : Option ℚ
  price_per_share : Option ℚ
  current_value : Option ℚ
deriving DecidableEq, Repr

/-- A `PortfolioSnapshot` row together with its position rows. -/
structure PortfolioSnapshotRec where
  id : ℕ
  timestamp : DateTime
  positions : List PositionSnapshotRow
deriving DecidableEq, Repr

/-- The `PositionSnapshot` DTO of `queries/positions.py` with its real
`datetime` timestamp. -/
structure PositionSnapshotDTO where
  position_id : ℕ
  ticker : Option String
  asset_type : Option String
  quantity : ℚ
  price : Option ℚ
  value : ℚ
  timestamp : DateTime
deriving DecidableEq, Repr

/-- `_position_snapshot_to_dto` (lines 271-285).  Python's
`float(x) if x else 0.0` sends both `None` and `0` to `0.0` (= `getD 0`);
`float(x) if x else None` sends both `None` and `0` to `None`. -/
def position_snapshot_to_dto (row : PositionSnapshotRow) (timestamp : DateTime) :
    PositionSnapshotDTO :=
  ⟨row.id, row.ticker, none, row.shares.getD 0,
   (match row.price_per_share with
    | some p => if p = 0 then none else some p
    | none => none),
   row.current_value.getD 0, timestamp⟩

/-- All DTOs produced from one portfolio snapshot (the inner
`for pos_snap in position_snapshots` loop). -/
def dtoOf (ps : PortfolioSnapshotRec) : List PositionSnapshotDTO :=
  ps.positions.map (fun r => position_snapshot_to_dto r ps.timestamp)

/-- DTOs of a run of portfolio snapshots, in order. -/
def dtosOfList (l : List PortfolioSnapshotRec) : List PositionSnapshotDTO :=
  (l.map dtoOf).flatten

/-- The bucket loop of `get_daily_position_snapshots` (lines 248-266):
`seen_buckets` dict, keep the first snapshot seen per bucket. -/
def bucketLoop (g : TimeGranularity) :
    List DateTime → List PortfolioSnapshotRec → List PositionSnapshotDTO
  | _, [] => []
  | seen, ps :: rest =>
    if get_bucket_key ps.timestamp g ∈ seen then bucketLoop g seen rest
    else dtoOf ps ++ bucketLoop g (get_bucket_key ps.timestamp g :: seen) rest

instance : IsTotal PositionSnapshotDTO (fun a b => dtKey a.timestamp ≤ dtKey b.timestamp) :=
  ⟨fun a b => Nat.le_total _ _⟩

instance : IsTrans PositionSnapshotDTO (fun a b => dtKey a.timestamp ≤ dtKey b.timestamp) :=
  ⟨fun _ _ _ h1 h2 => Nat.le_trans h1 h2⟩

instance : IsTotal PortfolioSnapshotRec (fun a b => dtKey b.timestamp ≤ dtKey a.timestamp) :=
  ⟨fun a b => (Nat.le_total _ _).symm⟩

instance : IsTrans PortfolioSnapshotRec (fun a b => dtKey b.timestamp ≤ dtKey a.timestamp) :=
  ⟨fun _ _ _ h1 h2 => Nat.le_trans h2 h1⟩

/-- `sorted(result, key=lambda x: x.timestamp)` (line 268). -/
def sortDtosByTs (l : List PositionSnapshotDTO) : List PositionSnapshotDTO :=
  l.insertionSort (fun a b => dtKey a.timestamp ≤ dtKey b.timestamp)

/-- The snapshot reducer: bucket loop plus final chronological sort
(lines 248-268). -/
def reduceSnapshots (g : TimeGranularity) (snaps : List PortfolioSnapshotRec) :
    List PositionSnapshotDTO :=
  sortDtosByTs (bucketLoop g [] snaps)

/-- Declarative "first snapshot encountered per bucket": keep the head,
discard every later snapshot in the head's bucket, recurse. -/
def firstsByBucket (g : TimeGranularity) : List PortfolioSnapshotRec → List PortfolioSnapshotRec
  | [] => []
  | a :: l =>
    a :: firstsByBucket g
      (l.filter (fun b => get_bucket_key b.timestamp g ≠ get_bucket_key a.timestamp g))
  termination_by l => l.length
  decreasing_by
    simp only [List.length_cons]
    exact Nat.lt_succ_of_le (List.length_filter_le _ _)

theorem bucketLoop_nil (g : TimeGranularity) (seen : List DateTime) :
    bucketLoop g seen [] = [] := rfl

theorem bucketLoop_cons (g : TimeGranularity) (seen : List DateTime)
    (ps : PortfolioSnapshotRec) (rest : List PortfolioSnapshotRec) :
    bucketLoop g seen (ps :: rest) =
      if get_bucket_key ps.timestamp g ∈ seen then bucketLoop g seen rest
      else dtoOf ps ++ bucketLoop g (get_bucket_key ps.timestamp g :: seen) rest := rfl

theorem firstsByBucket_nil (g : TimeGranularity) : firstsByBucket g [] = [] := by
  rw [firstsByBucket]

theorem firstsByBucket_cons (g : TimeGranularity) (a : PortfolioSnapshotRec)
    (l : List PortfolioSnapshotRec) :
    firstsByBucket g (a :: l) =
      a :: firstsByBucket g
        (l.filter (fun b => get_bucket_key b.timestamp g ≠ get_bucket_key a.timestamp g)) := by
  rw [firstsByBucket]

/-- The imperative seen-dict loop equals the declarative
first-per-bucket selection. -/
theorem bucketLoop_eq_firsts (g : TimeGranularity) :
    ∀ (snaps : List PortfolioSnapshotRec) (seen : List DateTime),
      bucketLoop g seen snaps =
        dtosOfList (firstsByBucket g
          (snaps.filter (fun s => get_bucket_key s.timestamp g ∉ seen))) := by
  intro snaps
  induction snaps with
  | nil => intro seen; simp [bucketLoop_nil, firstsByBucket_nil, dtosOfList]
  | cons s rest ih =>
    intro seen
    rw [bucketLoop_cons]
    by_cases hb : get_bucket_key s.timestamp g ∈ seen
    · rw [if_pos hb, ih seen, List.filter_cons, if_neg (by simpa using hb)]
    · rw [if_neg hb, ih (get_bucket_key s.timestamp g :: seen), List.filter_cons,
        if_pos (by simpa using hb)]
      rw [firstsByBucket_cons]
      have hcomm : rest.filter
            (fun b => get_bucket_key b.timestamp g ∉ (get_bucket_key s.timestamp g :: seen)) =
          (rest.filter (fun b => get_bucket_key b.timestamp g ∉ seen)).filter
            (fun b => get_bucket_key b.timestamp g ≠ get_bucket_key s.timestamp g) := by
        rw [List.filter_filter]
        refine List.filter_congr ?_
        intro b _
        rw [Bool.and_comm, ← Bool.decide_and, decide_eq_decide]
        rw [List.mem_cons]
        tauto
      rw [hcomm]
      rfl

theorem firstsByBucket_sublist (g : TimeGranularity) :
    ∀ (n : ℕ) (l : List PortfolioSnapshotRec), l.length = n →
      (firstsByBucket g l).Sublist l := by
  intro n
  induction n using Nat.strong_induction_on with
  | _ n ih =>
    intro l hl
    cases l with
    | nil =>
      rw [firstsByBucket_nil]
    | cons a rest =>
      rw [firstsByBucket_cons]
      have hlt : (rest.filter
          (fun b => get_bucket_key b.timestamp g ≠ get_bucket_key a.timestamp g)).length < n := by
        have := List.length_filter_le
          (fun b => decide (get_bucket_key b.timestamp g ≠ get_bucket_key a.timestamp g)) rest
        simp only [List.length_cons] at hl
        omega
      exact List.Sublist.cons₂ a ((ih _ hlt _ rfl).trans (List.filter_sublist rest))

theorem firstsByBucket_pairwise_ne (g : TimeGranularity) :
    ∀ (n : ℕ) (l : List PortfolioSnapshotRec), l.length = n →
      List.Pairwise
        (fun a b => get_bucket_key a.timestamp g ≠ get_bucket_key b.timestamp g)
        (firstsByBucket g l) := by
  intro n
  induction n using Nat.strong_induction_on with
  | _ n ih =>
    intro l hl
    cases l with
    | nil =>
      rw [firstsByBucket_nil]
      exact List.Pairwise.nil
    | cons a rest =>
      rw [firstsByBucket_cons]
      have hlt : (rest.filter
          (fun b => get_bucket_key b.timestamp g ≠ get_bucket_key a.timestamp g)).length < n := by
        have := List.length_filter_le
          (fun b => decide (get_bucket_key b.timestamp g ≠ get_bucket_key a.timestamp g)) rest
        simp only [List.length_cons] at hl
        omega
      refine List.pairwise_cons.mpr ⟨?_, ih _ hlt _ rfl⟩
      intro b hb
      have hbf : b ∈ rest.filter
          (fun x => get_bucket_key x.timestamp g ≠ get_bucket_key a.timestamp g) :=
        (firstsByBucket_sublist g _ _ rfl).subset hb
      have hh := (List.mem_filter.mp hbf).2
      have hne : get_bucket_key b.timestamp g ≠ get_bucket_key a.timestamp g := by
        simpa using hh
      intro hc
      exact hne hc.symm

theorem firstsByBucket_covers (g : TimeGranularity) :
    ∀ (n : ℕ) (l : List PortfolioSnapshotRec), l.length = n →
      List.Pairwise (fun a b => dtKey b.timestamp ≤ dtKey a.timestamp) l →
      ∀ s ∈ l, ∃ k ∈ firstsByBucket g l,
        get_bucket_key k.timestamp g = get_bucket_key s.timestamp g ∧
        dtKey s.timestamp ≤ dtKey k.timestamp := by
  intro n
  induction n using Nat.strong_induction_on with
  | _ n ih =>
    intro l hl hdesc s hs
    cases l with
    | nil => exact absurd hs (List.not_mem_nil s)
    | cons a rest =>
      rw [firstsByBucket_cons]
      rcases List.mem_cons.mp hs with heq | hmem
      · refine ⟨a, List.mem_cons_self _ _, ?_, ?_⟩
        · rw [heq]
        · rw [heq]
      · by_cases hbk : get_bucket_key s.timestamp g = get_bucket_key a.timestamp g
        · exact ⟨a, List.mem_cons_self _ _, hbk.symm,
            (List.pairwise_cons.mp hdesc).1 s hmem⟩
        · have hsf : s ∈ rest.filter
              (fun b => get_bucket_key b.timestamp g ≠ get_bucket_key a.timestamp g) :=
            List.mem_filter.mpr ⟨hmem, by simpa using hbk⟩
          have hlt : (rest.filter
              (fun b => get_bucket_key b.timestamp g ≠ get_bucket_key a.timestamp g)).length
                < n := by
            have := List.length_filter_le
              (fun b => decide (get_bucket_key b.timestamp g ≠ get_bucket_key a.timestamp g))
              rest
            simp only [List.length_cons] at hl
            omega
          have hdesc' : List.Pairwise (fun a b => dtKey b.timestamp ≤ dtKey a.timestamp)
              (rest.filter
                (fun b => get_bucket_key b.timestamp g ≠ get_bucket_key a.timestamp g)) :=
            List.Pairwise.sublist (List.filter_sublist rest) ((List.pairwise_cons.mp hdesc).2)
          obtain ⟨k, hk, hkb, hks⟩ := ih _ hlt _ rfl hdesc' s hsf
          exact ⟨k, List.mem_cons_of_mem _ hk, hkb, hks⟩

/-- **C4.** Given portfolio snapshots ordered newest-first, the reducer
keeps exactly the first snapshot encountered per bucket — the most
recent one in that bucket — discards the rest, and returns the kept
records in chronological order: the result is a chronologically sorted
permutation of the DTOs of the declarative first-per-bucket selection,
that selection is a subsequence of the input with pairwise distinct
buckets, and every input snapshot is dominated by a kept snapshot of
its own bucket with a timestamp at least as recent. -/
theorem C4_reducer_spec (g : TimeGranularity) (snaps : List PortfolioSnapshotRec)
    (hdesc : List.Pairwise (fun a b => dtKey b.timestamp ≤ dtKey a.timestamp) snaps) :
    (reduceSnapshots g snaps).Perm (dtosOfList (firstsByBucket g snaps)) ∧
    List.Sorted (fun a b => dtKey a.timestamp ≤ dtKey b.timestamp)
      (reduceSnapshots g snaps) ∧
    (firstsByBucket g snaps).Sublist snaps ∧
    List.Pairwise (fun a b => get_bucket_key a.timestamp g ≠ get_bucket_key b.timestamp g)
      (firstsByBucket g snaps) ∧
    (∀ s ∈ snaps, ∃ k ∈ firstsByBucket g snaps,
      get_bucket_key k.timestamp g = get_bucket_key s.timestamp g ∧
      dtKey s.timestamp ≤ dtKey k.timestamp) := by
  have hloop : bucketLoop g [] snaps = dtosOfList (firstsByBucket g snaps) := by
    rw [bucketLoop_eq_firsts g snaps []]
    have hfl : snaps.filter (fun s => get_bucket_key s.timestamp g ∉ ([] : List DateTime)) =
        snaps := by
      apply List.filter_eq_self.mpr
      intro s _
      simp
    rw [hfl]
  refine ⟨?_, ?_, firstsByBucket_sublist g snaps.length snaps rfl,
    firstsByBucket_pairwise_ne g snaps.length snaps rfl,
    firstsByBucket_covers g snaps.length snaps rfl hdesc⟩
  · rw [reduceSnapshots, sortDtosByTs, ← hloop]
    exact List.perm_insertionSort _ _
  · exact List.sorted_insertionSort _ _

/-- A concrete position row used by the C4/C2 examples (value 100,
price/shares left NULL). -/
def exRow (n : ℕ) : PositionSnapshotRow := ⟨n, none, none, none, some 100⟩

/-- Three portfolio snapshots, newest first, two of them on the same
calendar day. -/
def C4snaps : List PortfolioSnapshotRec :=
  [⟨3, ⟨2025, 1, 2, 1, 0, 0, 0⟩, [exRow 3]⟩,
   ⟨2, ⟨2025, 1, 1, 23, 30, 0, 0⟩, [exRow 2]⟩,
   ⟨1, ⟨2025, 1, 1, 23, 0, 0, 0⟩, [exRow 1]⟩]

/-- Witness for C4 on three newest-first snapshots with two sharing a
DAILY bucket: the reducer output is sorted, is a permutation of the
firsts-per-bucket DTOs, and every snapshot is covered. -/
theorem C4_reducer_spec_witness :
    (reduceSnapshots .daily C4snaps).Perm (dtosOfList (firstsByBucket .daily C4snaps)) ∧
    List.Sorted (fun a b => dtKey a.timestamp ≤ dtKey b.timestamp)
      (reduceSnapshots .daily C4snaps) ∧
    (reduceSnapshots .daily C4snaps).map (fun d => d.position_id) = [2, 3] := by
  have h := C4_reducer_spec .daily C4snaps (by decide)
  exact ⟨h.1, h.2.1, by decide⟩

/-- `timestamp.replace(day=1, hour=0, minute=0, second=0, microsecond=0)`
as used for the same-month check (lines 221-222). -/
def monthFloor (t : DateTime) : DateTime := ⟨t.year, t.month, 1, 0, 0, 0, 0⟩

/-- `timestamp.date()` as used for the same-day check (lines 232-233). -/
def date_triple (t : DateTime) : ℕ × ℕ × ℕ := (t.year, t.month, t.day)

/-- The tail of `get_daily_position_snapshots` after the monthly
downgrade decision (lines 228-268): the raw same-day path, else the
bucket reducer. -/
def coreAfterDowngrade (snaps : List PortfolioSnapshotRec) (g1 : TimeGranularity) :
    List PositionSnapshotDTO :=
  match snaps with
  | [] => []
  | newest :: rest =>
    if g1 = .daily ∧
        date_triple (((newest :: rest).getLast (List.cons_ne_nil _ _)).timestamp) =
          date_triple newest.timestamp ∧
        (newest :: rest).length ≤ 30
    then dtosOfList (newest :: rest).reverse
    else sortDtosByTs (bucketLoop g1 [] (newest :: rest))

/-- `get_daily_position_snapshots` from the fetched, descending-ordered
portfolio snapshots on (lines 215-268): empty guard, monthly-to-daily
downgrade when the oldest and newest snapshots fall in one calendar
month, then `coreAfterDowngrade`. -/
def get_daily_position_snapshots_core (snaps : List PortfolioSnapshotRec)
    (granularity : TimeGranularity) : List PositionSnapshotDTO :=
  match snaps with
  | [] => []
  | newest :: rest =>
    coreAfterDowngrade (newest :: rest)
      (if granularity = .monthly ∧
          monthFloor (((newest :: rest).getLast (List.cons_ne_nil _ _)).timestamp) =
            monthFloor newest.timestamp
       then .daily else granularity)

/-- `_determine_granularity_from_range` (lines 132-171);
`total_seconds()/86400` computed from the microsecond keys. -/
def determine_granularity_from_range (start_date : Option DateTime) (end_date : DateTime) :
    TimeGranularity :=
  match start_date with
  | none => .monthly
  | some s =>
    let days : ℚ := ((dtKey end_date : ℚ) - (dtKey s : ℚ)) / 86400000000
    if days ≤ 1 then .daily
    else if days ≤ 90 then .daily
    else if days ≤ 365 then .weekly
    else .monthly

/-- `ORDER BY timestamp DESC` (line 213) on the rows that pass the
range filter: a stable descending sort. -/
def sortSnapsDesc (l : List PortfolioSnapshotRec) : List PortfolioSnapshotRec :=
  l.insertionSort (fun a b => dtKey b.timestamp ≤ dtKey a.timestamp)

/-- `get_daily_position_snapshots` (lines 174-268) over a modelled
database `db` of this user's portfolio snapshots: auto-detect
granularity if none, filter to the range, order descending, reduce. -/
def get_daily_position_snapshots (db : List PortfolioSnapshotRec)
    (start_date : Option DateTime) (end_date : DateTime)
    (granularity : Option TimeGranularity) : List PositionSnapshotDTO :=
  let g := match granularity with
    | some g0 => g0
    | none => determine_granularity_from_range start_date end_date
  let snaps := sortSnapsDesc (db.filter (fun ps =>
    (match start_date with
     | some s => decide (dtKey s ≤ dtKey ps.timestamp)
     | none => true) && decide (dtKey ps.timestamp ≤ dtKey end_date)))
  get_daily_position_snapshots_core snaps g

/-- **C2 (amended).** When all fetched snapshots fall in one calendar
month, MONTHLY bucketing behaves exactly as DAILY bucketing (the
downgrade rule); and the raw unbucketed path is taken exactly when every
fetched snapshot falls on one calendar *date* (not merely within a
1-day range) with at most 30 snapshots. -/
theorem C2_granularity_amended (snaps : List PortfolioSnapshotRec) :
    (snaps ≠ [] →
      (∀ s1 ∈ snaps, ∀ s2 ∈ snaps, monthFloor s1.timestamp = monthFloor s2.timestamp) →
      get_daily_position_snapshots_core snaps .monthly =
        get_daily_position_snapshots_core snaps .daily) ∧
    ((∀ s1 ∈ snaps, ∀ s2 ∈ snaps, date_triple s1.timestamp = date_triple s2.timestamp) →
      snaps.length ≤ 30 →
      get_daily_position_snapshots_core snaps .daily = dtosOfList snaps.reverse) := by
  constructor
  · intro hne hmonth
    cases snaps with
    | nil => exact absurd rfl hne
    | cons newest rest =>
      show coreAfterDowngrade (newest :: rest) _ = coreAfterDowngrade (newest :: rest) _
      have hm : monthFloor (((newest :: rest).getLast (List.cons_ne_nil _ _)).timestamp) =
          monthFloor newest.timestamp :=
        hmonth _ (List.getLast_mem _) newest (List.mem_cons_self _ _)
      rw [if_pos ⟨rfl, hm⟩, if_neg (fun hc => by cases hc.1)]
  · intro hdate hlen
    cases snaps with
    | nil => rfl
    | cons newest rest =>
      show coreAfterDowngrade (newest :: rest) _ = _
      rw [if_neg (fun hc => by cases hc.1)]
      show (if TimeGranularity.daily = TimeGranularity.daily ∧
          date_triple (((newest :: rest).getLast (List.cons_ne_nil _ _)).timestamp) =
            date_triple newest.timestamp ∧ (newest :: rest).length ≤ 30
        then dtosOfList (newest :: rest).reverse
        else sortDtosByTs (bucketLoop .daily [] (newest :: rest))) =
          dtosOfList (newest :: rest).reverse
      rw [if_pos ⟨rfl,
        hdate _ (List.getLast_mem _) newest (List.mem_cons_self _ _), hlen⟩]

/-- Database for the C2 counterexample: three snapshots inside a 2-hour
window that straddles midnight. -/
def C2db : List PortfolioSnapshotRec :=
  [⟨1, ⟨2025, 1, 1, 23, 0, 0, 0⟩, [exRow 1]⟩,
   ⟨2, ⟨2025, 1, 1, 23, 30, 0, 0⟩, [exRow 2]⟩,
   ⟨3, ⟨2025, 1, 2, 1, 0, 0, 0⟩, [exRow 3]⟩]

/-- Range start for the C2 counterexample. -/
def C2start : DateTime := ⟨2025, 1, 1, 22, 0, 0, 0⟩

/-- Range end for the C2 counterexample. -/
def C2rangeEnd : DateTime := ⟨2025, 1, 2, 2, 0, 0, 0⟩

/-- **C2 counterexample.** A DAILY request over a range spanning four
hours (≤ 1 day) with 3 (≤ 30) underlying records does *not* return
every raw record: the range straddles midnight, the same-calendar-date
check fails, and bucketing drops the 23:00 record, returning only
records 2 and 3. -/
theorem C2_counterexample :
    dtKey C2rangeEnd - dtKey C2start ≤ 86400000000 ∧
    (C2db.all (fun ps => decide (dtKey C2start ≤ dtKey ps.timestamp) &&
      decide (dtKey ps.timestamp ≤ dtKey C2rangeEnd))) = true ∧
    (C2db.map (fun ps => ps.positions.length)).sum = 3 ∧
    (get_daily_position_snapshots C2db (some C2start) C2rangeEnd (some .daily)).map
      (fun d => d.position_id) = [2, 3] := by
  refine ⟨by decide, by decide, by decide, by decide⟩

/-- Fifteen snapshots all inside March 2025, on fifteen distinct days
(stored oldest-last as the descending query returns them). -/
def C2march : List PortfolioSnapshotRec :=
  [⟨15, ⟨2025, 3, 15, 12, 0, 0, 0⟩, [exRow 15]⟩,
   ⟨14, ⟨2025, 3, 14, 12, 0, 0, 0⟩, [exRow 14]⟩,
   ⟨13, ⟨2025, 3, 13, 12, 0, 0, 0⟩, [exRow 13]⟩,
   ⟨12, ⟨2025, 3, 12, 12, 0, 0, 0⟩, [exRow 12]⟩,
   ⟨11, ⟨2025, 3, 11, 12, 0, 0, 0⟩, [exRow 11]⟩,
   ⟨10, ⟨2025, 3, 10, 12, 0, 0, 0⟩, [exRow 10]⟩,
   ⟨9, ⟨2025, 3, 9, 12, 0, 0, 0⟩, [exRow 9]⟩,
   ⟨8, ⟨2025, 3, 8, 12, 0, 0, 0⟩, [exRow 8]⟩,
   ⟨7, ⟨2025, 3, 7, 12, 0, 0, 0⟩, [exRow 7]⟩,
   ⟨6, ⟨2025, 3, 6, 12, 0, 0, 0⟩, [exRow 6]⟩,
   ⟨5, ⟨2025, 3, 5, 12, 0, 0, 0⟩, [exRow 5]⟩,
   ⟨4, ⟨2025, 3, 4, 12, 0, 0, 0⟩, [exRow 4]⟩,
   ⟨3, ⟨2025, 3, 3, 12, 0, 0, 0⟩, [exRow 3]⟩,
   ⟨2, ⟨2025, 3, 2, 12, 0, 0, 0⟩, [exRow 2]⟩,
   ⟨1, ⟨2025, 3, 1, 12, 0, 0, 0⟩, [exRow 1]⟩]

/-- Witness for C2 (amended) on the spec's monthly-downgrade scenario:
15 snapshots all dated within March 2025, requested MONTHLY, behave as
DAILY and yield 15 points, not a single monthly point. -/
theorem C2_granularity_amended_witness :
    get_daily_position_snapshots_core C2march .monthly =
      get_daily_position_snapshots_core C2march .daily ∧
    (get_daily_position_snapshots_core C2march .monthly).length = 15 := by
  have h := (C2_granularity_amended C2march).1 (by decide) (by decide)
  refine ⟨h, ?_⟩
  rw [h]
  decide

/-!
### Allocation calculator (`calculators/allocation.py`)
-/

/-- One output dict of `AllocationCalculator.calculate`:
`{"asset_type": ..., "value": ..., "percent": ...}`. -/
structure AllocationEntry where
  asset_type : String
  value : ℚ
  percent : ℚ
deriving DecidableEq, Repr

/-- `snapshot.asset_type or "OTHER"` (line 29): Python `or` also sends
the falsy empty string to `"OTHER"`. -/
def allocKey (s : PosSnap) : String :=
  match s.asset_type with
  | some a => if a = "" then "OTHER" else a
  | none => "OTHER"

instance : IsTotal (String × ℚ) (fun a b => b.2 ≤ a.2) :=
  ⟨fun a b => le_total b.2 a.2⟩

instance : IsTrans (String × ℚ) (fun a b => b.2 ≤ a.2) :=
  ⟨fun _ _ _ h1 h2 => le_trans h2 h1⟩

/-- `AllocationCalculator.calculate` (lines 13-43).  The loop
accumulates the per-key `defaultdict(float)` and the running total
(which equals the sum of all snapshot values);
`sorted(..., key=lambda x: x[1], reverse=True)` is the stable
descending sort on the raw group value. -/
def allocation_calculate (snapshots : List PosSnap) : List AllocationEntry :=
  let by_type := snapshots.foldl (fun m s => upsertAdd m (allocKey s) s.value) []
  let total := (snapshots.map (·.value)).sum
  (by_type.insertionSort (fun a b => b.2 ≤ a.2)).map
    (fun e => ⟨e.1, round2 e.2, round2 (if 0 < total then e.2 / total * 100 else 0)⟩)

theorem mem_keys_foldl_upsertAdd {α κ : Type} [DecidableEq κ] (f : α → κ) (g : α → ℚ) :
    ∀ (items : List α) (m : List (κ × ℚ)) (k : κ),
      k ∈ ((items.foldl (fun acc i => upsertAdd acc (f i) (g i)) m).map Prod.fst) ↔
        k ∈ m.map Prod.fst ∨ k ∈ items.map f := by
  intro items
  induction items with
  | nil => intro m k; simp
  | cons i rest ih =>
    intro m k
    rw [List.foldl_cons, ih (upsertAdd m (f i) (g i)) k, mem_keys_upsertAdd]
    rw [List.map_cons, List.mem_cons]
    tauto

/-- **C5 (amended).** The allocation calculator groups snapshots by
asset type (unlabeled ones under "OTHER"), sums raw values per group,
emits `round2` of the group value and of
`group/total*100` (0 when the total is not positive), and sorts
descending by group value — ties kept in first-appearance order (the
sort is stable), not broken by key. -/
theorem C5_allocation_amended (snapshots : List PosSnap) :
    ((allocation_calculate snapshots).map (·.asset_type)).Perm
      ((snapshots.map allocKey).dedup) ∧
    (∀ e ∈ allocation_calculate snapshots,
      e.value =
        round2 (((snapshots.filter (fun s => allocKey s = e.asset_type)).map (·.value)).sum) ∧
      e.percent = round2
        (if 0 < (snapshots.map (·.value)).sum
         then ((snapshots.filter (fun s => allocKey s = e.asset_type)).map (·.value)).sum /
                (snapshots.map (·.value)).sum * 100
         else 0)) ∧
    List.Sorted (fun a b => b.value ≤ a.value) (allocation_calculate snapshots) := by
  refine ⟨?_, ?_, ?_⟩
  · have h1 : ((allocation_calculate snapshots).map (·.asset_type)) =
        ((snapshots.foldl (fun m s => upsertAdd m (allocKey s) s.value) []).insertionSort
          (fun a b => b.2 ≤ a.2)).map Prod.fst := by
      show (List.map _ (List.map _ _)) = _
      rw [List.map_map]
      rfl
    rw [h1]
    have h2 : (((snapshots.foldl (fun m s => upsertAdd m (allocKey s) s.value) []).insertionSort
        (fun a b => b.2 ≤ a.2)).map Prod.fst).Perm
        ((snapshots.foldl (fun m s => upsertAdd m (allocKey s) s.value) []).map Prod.fst) :=
      (List.perm_insertionSort _ _).map _
    refine h2.trans ?_
    have hnd1 : ((snapshots.foldl (fun m s => upsertAdd m (allocKey s) s.value) []).map
        Prod.fst).Nodup :=
      nodup_keys_foldl_upsertAdd allocKey (fun s => s.value) snapshots [] (by simp)
    rw [List.perm_ext_iff_of_nodup hnd1 (List.nodup_dedup _)]
    intro k
    rw [List.mem_dedup, mem_keys_foldl_upsertAdd allocKey (fun s => s.value) snapshots [] k]
    simp
  · intro e he
    obtain ⟨p, hp, rfl⟩ := List.mem_map.mp he
    have hp' : p ∈ snapshots.foldl (fun m s => upsertAdd m (allocKey s) s.value) [] :=
      (List.mem_insertionSort _).mp hp
    have hnd : ((snapshots.foldl (fun m s => upsertAdd m (allocKey s) s.value) []).map
        Prod.fst).Nodup :=
      nodup_keys_foldl_upsertAdd allocKey (fun s => s.value) snapshots [] (by simp)
    have hfind := assocFind_of_mem _ p hp' hnd
    have hchar := assocFind_foldl_upsertAdd allocKey (fun s => s.value) snapshots [] p.1
    have h3 := hfind.symm.trans hchar
    by_cases hm : p.1 ∈ snapshots.map allocKey
    · rw [if_pos hm, assocFind_nil] at h3
      have h4 := Option.some.inj h3
      have h5 : p.2 = ((snapshots.filter (fun s => allocKey s = p.1)).map (·.value)).sum := by
        rw [h4]
        simp
      constructor
      · show round2 p.2 = _
        rw [h5]
      · show round2 (if 0 < (snapshots.map (·.value)).sum then _ else _) = _
        rw [h5]
    · rw [if_neg hm, assocFind_nil] at h3
      exact absurd h3 (by simp)
  · have hs : List.Sorted (fun a b : String × ℚ => b.2 ≤ a.2)
        ((snapshots.foldl (fun m s => upsertAdd m (allocKey s) s.value) []).insertionSort
          (fun a b => b.2 ≤ a.2)) :=
      List.sorted_insertionSort _ _
    show List.Pairwise _ (List.map _ _)
    rw [List.pairwise_map]
    exact hs.imp (fun h => round2_mono h)

/-- Two equal-valued groups, "B" appearing first in the input. -/
def C5tieB : PosSnap := ⟨1, none, some "B", 0, none, 500, 1⟩

/-- Second snapshot of the tie pair, key "A". -/
def C5tieA : PosSnap := ⟨2, none, some "A", 0, none, 500, 1⟩

/-- **C5 counterexample.** Ties are *not* broken by key: with groups
B=500 and A=500 (B first in the input), the calculator returns B before
A (stable first-appearance order), not the key order A, B the claim
requires. -/
theorem C5_counterexample :
    (allocation_calculate [C5tieB, C5tieA]).map (·.asset_type) = ["B", "A"] ∧
    (["B", "A"] : List String) ≠ ["A", "B"] := by
  exact ⟨by decide, by decide⟩

/-- Scenario snapshot A = 10000. -/
def C5a1 : PosSnap := ⟨1, none, some "A", 0, none, 10000, 1⟩

/-- Scenario snapshot A = 5000. -/
def C5a2 : PosSnap := ⟨2, none, some "A", 0, none, 5000, 1⟩

/-- Scenario snapshot B = 500. -/
def C5b : PosSnap := ⟨3, none, some "B", 0, none, 500, 1⟩

/-- The spec's allocation-grouping scenario records. -/
def C5scenario : List PosSnap := [C5a1, C5a2, C5b]

/-- Witness for C5 (amended) on the spec scenario
`{A:10000},{A:5000},{B:500}`: the output is
`[{A,15000,96.77},{B,500,3.23}]`, descending by value, and the A value
is the rounded filtered sum, by the amended theorem. -/
theorem C5_allocation_amended_witness :
    allocation_calculate C5scenario =
      [⟨"A", 15000, 9677/100⟩, ⟨"B", 500, 323/100⟩] ∧
    AllocationEntry.value ⟨"A", 15000, 9677/100⟩ =
      round2 (((C5scenario.filter (fun s => allocKey s = "A")).map (·.value)).sum) := by
  have htotpos : (0:ℚ) < (C5scenario.map (·.value)).sum := by
    show (0:ℚ) < 10000 + (5000 + (500 + 0))
    norm_num
  have hcmp : ((("B":String), (500:ℚ))).2 ≤ ((("A":String), (10000:ℚ)+5000)).2 := by
    show (500:ℚ) ≤ 10000 + 5000
    norm_num
  have hins : ([(("A":String), (10000:ℚ)+5000), (("B":String), (500:ℚ))]).insertionSort
      (fun a b => b.2 ≤ a.2) = [("A", (10000:ℚ)+5000), ("B", (500:ℚ))] := by
    show List.orderedInsert _ ("A", (10000:ℚ)+5000)
        (List.orderedInsert _ ("B", (500:ℚ)) []) = _
    rw [show List.orderedInsert (fun a b : String × ℚ => b.2 ≤ a.2) ("B", (500:ℚ)) [] =
      [("B", (500:ℚ))] from rfl]
    exact List.orderedInsert_of_le _ _ hcmp
  have hby : C5scenario.foldl (fun m s => upsertAdd m (allocKey s) s.value) [] =
      [("A", (10000:ℚ)+5000), ("B", (500:ℚ))] := rfl
  have hcomp : allocation_calculate C5scenario =
      [⟨"A", 15000, 9677/100⟩, ⟨"B", 500, 323/100⟩] := by
    unfold allocation_calculate
    rw [hby]
    dsimp only
    rw [hins, List.map_cons, List.map_cons, List.map_nil]
    rw [if_pos htotpos, if_pos htotpos]
    norm_num [round2, round_eq, C5scenario, C5a1, C5a2, C5b]
  refine ⟨hcomp, ?_⟩
  exact ((C5_allocation_amended C5scenario).2.1 ⟨"A", 15000, 9677/100⟩
    (by rw [hcomp]; exact List.mem_cons_self _ _)).1

/-!
### Dashboard orchestrator (`dashboard_service.py`, `models/dashboard_models.py`)

The response DTOs are pydantic models; every field of
`DashboardSnapshot` is declared required (`Field(...)`), so
instantiating it without `granularity` raises a `ValidationError`.
Construction is therefore modelled as fallible (`mkDashboardSnapshot`),
with the omitted keyword argument as `none`.
-/

structure MetricDelta where
  absolute : ℚ
  percent : ℚ
deriving DecidableEq, Repr

structure TotalMetrics where
  current : ℚ
  start : ℚ
  delta : MetricDelta
deriving DecidableEq, Repr

structure PerformanceMetrics where
  series : List SeriesPoint
  position_series : Option (List SeriesPoint)
  cash_series : Option (List SeriesPoint)
  delta : MetricDelta
  max : ℚ
  min : ℚ
deriving DecidableEq, Repr

structure AllocationItem where
  ticker : String
  value : ℚ
  percent : ℚ
deriving DecidableEq, Repr

structure ActivityItem where
  timestamp : ℕ
  activity_type : String
  position_id : Option ℕ
  asset_type : Option String
  quantity : ℚ
  value : ℚ
  dividend_amount : ℚ
  ex_date : Option ℕ
  ticker : Option String
deriving DecidableEq, Repr

structure DashboardSnapshotDTO where
  as_of : ℕ
  granularity : String
  total : TotalMetrics
  performance : PerformanceMetrics
  allocation : List AllocationItem
  activity : List ActivityItem
deriving DecidableEq, Repr

/-- The exceptions `build_dashboard` can raise: the explicit
`ValueError`, pydantic's missing-required-field `ValidationError`, and
the `KeyError` from reading a missing dict key. -/
inductive DashboardError where
  | valueError (msg : String)
  | validationError (field : String)
  | keyError (key : String)
deriving DecidableEq, Repr

/-- Pydantic construction of `DashboardSnapshot`: `granularity` is a
required field, so omitting it (`none`) is a `ValidationError`. -/
def mkDashboardSnapshot (as_of : ℕ) (granularity : Option String) (total : TotalMetrics)
    (performance : PerformanceMetrics) (allocation : List AllocationItem)
    (activity : List ActivityItem) : Except DashboardError DashboardSnapshotDTO :=
  match granularity with
  | none => Except.error (DashboardError.validationError "granularity")
  | some g => Except.ok ⟨as_of, g, total, performance, allocation, activity⟩

/-- `DashboardService._empty_dashboard` (lines 396-417): zero-valued
metrics, but the required `granularity` keyword is not passed. -/
def empty_dashboard (now : ℕ) : Except DashboardError DashboardSnapshotDTO :=
  mkDashboardSnapshot now none ⟨0, 0, ⟨0, 0⟩⟩ ⟨[], none, none, ⟨0, 0⟩, 0, 0⟩ [] []

/-- `DashboardService.build_dashboard` (lines 35-238), with the query
and live-price collaborators supplied as arguments: `start_snapshots`,
`end_snapshots`, `daily_snapshots` from the position queries,
`cash_flows` from the dividend query, the assembled sorted
`activity_items`, `current_total` from `_calculate_current_total`,
`current_position_snapshots` from `_get_current_position_snapshots`,
the request granularity string, and `now` (`datetime.utcnow()`).
`user_id = 0` models a falsy owner id.  The dead local `end_val`
(line 145) is omitted.  In the assembly, `item["ticker"]` is read from
allocation dicts whose keys are `asset_type/value/percent`, which in
Python raises `KeyError` whenever the allocation list is non-empty. -/
def build_dashboard (user_id : ℕ)
    (start_snapshots end_snapshots daily_snapshots : List PosSnap)
    (cash_flows : List CashFlow) (activity_items : List ActivityItem)
    (current_total : ℚ) (current_position_snapshots : List PosSnap)
    (granularity_str : String) (now : ℕ) :
    Except DashboardError DashboardSnapshotDTO :=
  if user_id = 0 then Except.error (DashboardError.valueError "user_id required")
  else if end_snapshots = [] ∧ cash_flows = [] then empty_dashboard now
  else
    let start_val0 := (start_snapshots.map (·.value)).sum
    let start_val :=
      if start_snapshots = [] ∧ end_snapshots ≠ []
      then (end_snapshots.map (·.value)).sum else start_val0
    let abs_delta := current_total - start_val
    let pct_delta := if 0 < start_val then abs_delta / start_val * 100 else 0
    let series_data := calculate_series daily_snapshots (some cash_flows)
    let total_series :=
      if series_data.total_series = [] ∨
          ((series_data.total_series.getLast?.map (·.ts)).getD 0) < now
      then series_data.total_series ++ [SeriesPoint.mk now (round2 current_total)]
      else series_data.total_series
    let perf_stats := calculate_stats total_series
    let perf_delta := calculate_delta total_series
    let allocation_data := allocation_calculate current_position_snapshots
    if allocation_data ≠ [] then Except.error (DashboardError.keyError "ticker")
    else
      mkDashboardSnapshot now (some granularity_str)
        ⟨round2 current_total, round2 start_val, ⟨round2 abs_delta, round2 pct_delta⟩⟩
        ⟨total_series,
         (if series_data.position_series ≠ [] then some series_data.position_series else none),
         (if series_data.cash_series ≠ [] then some series_data.cash_series else none),
         ⟨round2 perf_delta.1, round2 perf_delta.2⟩,
         round2 perf_stats.1, round2 perf_stats.2⟩
        [] activity_items

/-- **C8.** The claim fails on the code: for an owner with no position
snapshots and no cash flows, `build_dashboard` reaches
`_empty_dashboard`, which omits the required `granularity` field of the
pydantic `DashboardSnapshot`, so the call raises a `ValidationError`
instead of returning the zero-valued snapshot (the repository's own
`test_build_dashboard_empty_portfolio` expects the zero snapshot). -/
theorem C8_empty_dashboard_raises :
    build_dashboard 1 [] [] [] [] [] 0 [] "daily" 0 =
      Except.error (DashboardError.validationError "granularity") ∧
    empty_dashboard 0 = Except.error (DashboardError.validationError "granularity") :=
  ⟨rfl, rfl⟩
